import Mathlib

/-!
Verification development for the cecli-cats results pipeline.

This file shallowly embeds the core of the repository:
* `calculate_directory_hash` (src/cecli_cat/utils.py) — content hashing of a
  fixture directory,
* `load_index`, `find_run_dir`, the aggregation loop of `run_aggregate` and the
  consolidation pass of `run_consolidate` (src/cecli_cat/commands/results.py),
and proves the specification's testable properties about the embedding.

Modelling conventions:
* a filesystem tree is passed explicitly as data; file reads are fallible
  (`ReadResult`), and fallible computations return `Except`;
* Python `dict`s are association lists with Python's insertion-order update
  semantics (`dictInsert`);
* JSON/YAML values are `JValue`s; numbers are decimal mantissa/exponent pairs
  (an exact model of JSON numeric literals; no claim computes with them);
* Python `sorted` on strings is a stable insertion sort under code-point
  lexicographic order (`sortK`).
-/

/-! ## Python string ordering (code-point lexicographic) -/

/-- Lexicographic strict order on character lists by code point, matching
Python string comparison: a proper prefix is smaller. -/
def charsLt : List Char → List Char → Bool
  | [], [] => false
  | [], _ :: _ => true
  | _ :: _, [] => false
  | a :: as, b :: bs => if a < b then true else if b < a then false else charsLt as bs

/-- Python `a < b` on strings. -/
def strLt (a b : String) : Bool := charsLt a.data b.data

/-- Python `a <= b` on strings (total order, so `≤` is `¬ >`). -/
def strLe (a b : String) : Bool := !(strLt b a)

/-! ## Stable insertion sort (model of Python `sorted`) -/

/-- Insert `x` into a list sorted by `key`, before the first element whose key
is not smaller than `x`'s: combined with `List.foldr`, this is a stable sort. -/
def insortK (key : α → String) (x : α) : List α → List α
  | [] => [x]
  | y :: ys => if strLt (key y) (key x) then y :: insortK key x ys else x :: y :: ys

/-- Stable sort by a string key; models Python `sorted` (which is stable and
compares strings by code point). -/
def sortK (key : α → String) (l : List α) : List α :=
  l.foldr (insortK key) []

/-- Non-strict key order (`key a ≤ key b`, i.e. not `key b < key a`). -/
def keyLe (key : α → String) (a b : α) : Prop := strLt (key b) (key a) = false

/-- Strict key order. -/
def keyLtP (key : α → String) (a b : α) : Prop := strLt (key a) (key b) = true

/-! ## Python dict as an association list -/

/-- Python `k in d`. -/
def dictHasKey [DecidableEq α] (d : List (α × β)) (k : α) : Bool :=
  match d with
  | [] => false
  | p :: rest => decide (p.1 = k) || dictHasKey rest k

/-- Python `d[k] = v`: update in place if the key exists (keeping its
position), else append at the end. -/
def dictInsert [DecidableEq α] (d : List (α × β)) (k : α) (v : β) : List (α × β) :=
  if dictHasKey d k then
    d.map (fun p => if p.1 = k then (k, v) else p)
  else d ++ [(k, v)]

/-- Python `d.get(k)`: the first binding of `k` (association lists built with
`dictInsert` have unique keys). -/
def dictGet [DecidableEq α] (d : List (α × β)) (k : α) : Option β :=
  match d with
  | [] => none
  | p :: rest => if p.1 = k then some p.2 else dictGet rest k

/-- Python `del d[k]` (also usable to state key-absence). -/
def dictErase [DecidableEq α] (d : List (α × β)) (k : α) : List (α × β) :=
  d.filter (fun p => !(decide (p.1 = k)))

instance [DecidableEq ε] [DecidableEq α] : DecidableEq (Except ε α) := fun a b =>
  match a, b with
  | .ok x, .ok y =>
    if h : x = y then .isTrue (by rw [h]) else .isFalse (by intro hc; cases hc; exact h rfl)
  | .error x, .error y =>
    if h : x = y then .isTrue (by rw [h]) else .isFalse (by intro hc; cases hc; exact h rfl)
  | .ok _, .error _ => .isFalse (by intro hc; cases hc)
  | .error _, .ok _ => .isFalse (by intro hc; cases hc)

/-! ## JSON / YAML values -/

/-- Scalar JSON/YAML values. Numbers are modelled exactly as decimal
literals `mantissa * 10 ^ exp10`; the pipeline only copies numbers around and
tests their truthiness, so no arithmetic on them is ever needed. -/
inductive JScalar where
  | null
  | bool (b : Bool)
  | num (mantissa : Int) (exp10 : Int)
  | str (s : String)
deriving DecidableEq, Repr

/-- JSON/YAML values as used by this program: scalars, arrays of scalars and
flat objects (no raw result, metadata file or index row in the pipeline nests
containers deeper). -/
inductive JValue where
  | scalar (v : JScalar)
  | arr (xs : List JScalar)
  | obj (kvs : List (String × JScalar))
deriving DecidableEq, Repr

/-- A parsed JSON object (Python dict with string keys). -/
abbrev JObj := List (String × JValue)

/-- Python truthiness of a scalar. -/
def JScalar.truthy : JScalar → Bool
  | .null => false
  | .bool b => b
  | .num m _ => !(decide (m = 0))
  | .str s => !(decide (s = ""))

/-- Python truthiness of a value (`None`, `False`, `0`, `""`, `[]`, `{}` are
falsy). -/
def JValue.truthy : JValue → Bool
  | .scalar v => v.truthy
  | .arr xs => !(decide (xs = []))
  | .obj kvs => !(decide (kvs = []))

/-- Shorthand for a JSON string value. -/
def jstr (s : String) : JValue := .scalar (.str s)

/-- Python `str()` of a value as the `csv` writer renders a cell: `None`
becomes the empty field, strings are verbatim, `True`/`False` as in Python.
Numbers are rendered from the mantissa/exponent pair; no claim depends on the
numeric spelling. -/
def cellStr : JValue → String
  | .scalar .null => ""
  | .scalar (.bool true) => "True"
  | .scalar (.bool false) => "False"
  | .scalar (.num m e) => toString m ++ "e" ++ toString e
  | .scalar (.str s) => s
  | .arr _ => "<list>"
  | .obj _ => "<dict>"

/-! ## UTF-8 encoding (model of Python `str.encode()`) -/

/-- UTF-8 bytes of one code point. -/
def utf8Char (c : Char) : List Nat :=
  let n := c.toNat
  if n < 128 then [n]
  else if n < 2048 then [192 ||| (n >>> 6), 128 ||| (n &&& 63)]
  else if n < 65536 then
    [224 ||| (n >>> 12), 128 ||| ((n >>> 6) &&& 63), 128 ||| (n &&& 63)]
  else
    [240 ||| (n >>> 18), 128 ||| ((n >>> 12) &&& 63),
     128 ||| ((n >>> 6) &&& 63), 128 ||| (n &&& 63)]

/-- Python `s.encode()`: UTF-8 bytes of a string. -/
def utf8Encode (s : String) : List Nat :=
  s.data.foldr (fun c acc => utf8Char c ++ acc) []

/-! ## SHA-256 (model of `hashlib.sha256`)

A complete executable SHA-256 over byte lists, with the round constants
computed from first principles (fractional parts of square/cube roots of the
first primes), so the digest function is the real one rather than a stub. The
pipeline theorems never unfold it; it is exercised by the sanity theorems
`sha256hex_empty_input` and `sha256hex_abc` below. -/

/-- 2^32. -/
def pow32 : Nat := 4294967296

/-- 2^32 - 1. -/
def mask32 : Nat := 4294967295

/-- Rotate a 32-bit word right by `n`. -/
def rotr32 (x n : Nat) : Nat := ((x >>> n) ||| (x <<< (32 - n))) &&& mask32

/-- SHA-256 Ch function. -/
def shaCh (x y z : Nat) : Nat := (x &&& y) ^^^ ((mask32 - x) &&& z)

/-- SHA-256 Maj function. -/
def shaMaj (x y z : Nat) : Nat := (x &&& y) ^^^ (x &&& z) ^^^ (y &&& z)

/-- SHA-256 Σ0. -/
def bigSigma0 (x : Nat) : Nat := rotr32 x 2 ^^^ rotr32 x 13 ^^^ rotr32 x 22

/-- SHA-256 Σ1. -/
def bigSigma1 (x : Nat) : Nat := rotr32 x 6 ^^^ rotr32 x 11 ^^^ rotr32 x 25

/-- SHA-256 σ0. -/
def smallSigma0 (x : Nat) : Nat := rotr32 x 7 ^^^ rotr32 x 18 ^^^ (x >>> 3)

/-- SHA-256 σ1. -/
def smallSigma1 (x : Nat) : Nat := rotr32 x 17 ^^^ rotr32 x 19 ^^^ (x >>> 10)

/-- Bisection step for integer `e`-th roots (structural in the fuel so the
kernel can evaluate it). Invariant: `lo ^ e ≤ n < hi ^ e`. -/
def rootBisectGo (e n : Nat) : Nat → Nat → Nat → Nat
  | 0, lo, _ => lo
  | fuel + 1, lo, hi =>
    if hi ≤ lo + 1 then lo
    else
      let mid := (lo + hi) / 2
      if mid ^ e ≤ n then rootBisectGo e n fuel mid hi else rootBisectGo e n fuel lo mid

/-- Integer `e`-th root by bisection (enough fuel for the constants below). -/
def rootBisect (e n : Nat) : Nat := rootBisectGo e n 130 0 (n + 1)

/-- First 32 bits of the fractional part of the `e`-th root of `p`. -/
def fracRoot32 (e p : Nat) : Nat := rootBisect e (p * 2 ^ (32 * e)) % pow32

/-- Primality by trial division (used only to generate the SHA-256 constants). -/
def isPrimeTrial (n : Nat) : Bool :=
  decide (2 ≤ n) && (List.range n).all (fun d => decide (d < 2) || !(decide (n % d = 0)))

/-- The first `count` primes (the 64th prime is 311 < 400). -/
def firstPrimes (count : Nat) : List Nat :=
  ((List.range 400).filter isPrimeTrial).take count

/-- SHA-256 round constants: fractional cube roots of the first 64 primes. -/
def sha256K : List Nat := (firstPrimes 64).map (fracRoot32 3)

/-- SHA-256 initial hash value: fractional square roots of the first 8 primes. -/
def sha256H0 : List Nat := (firstPrimes 8).map (fracRoot32 2)

/-- SHA-256 padding: `0x80`, zeros to 56 mod 64, then the bit length as eight
big-endian bytes. -/
def sha256Pad (msg : List Nat) : List Nat :=
  msg ++ [128] ++ List.replicate ((64 + 56 - ((msg.length + 1) % 64)) % 64) 0 ++
    [56, 48, 40, 32, 24, 16, 8, 0].map (fun s => ((8 * msg.length) >>> s) &&& 255)

/-- Group bytes into big-endian 32-bit words. -/
def bytesToWords : List Nat → List Nat
  | b0 :: b1 :: b2 :: b3 :: rest =>
    ((b0 <<< 24) ||| (b1 <<< 16) ||| (b2 <<< 8) ||| b3) :: bytesToWords rest
  | _ => []

/-- Split a word list into 16-word blocks. -/
def chunk16 : List Nat → List (List Nat)
  | w0 :: w1 :: w2 :: w3 :: w4 :: w5 :: w6 :: w7 ::
    w8 :: w9 :: w10 :: w11 :: w12 :: w13 :: w14 :: w15 :: rest =>
    [w0, w1, w2, w3, w4, w5, w6, w7, w8, w9, w10, w11, w12, w13, w14, w15] :: chunk16 rest
  | _ => []

/-- Next word of the message schedule, from the words produced so far. -/
def nextW (ws : List Nat) : Nat :=
  let n := ws.length
  (smallSigma1 (ws.getD (n - 2) 0) + ws.getD (n - 7) 0 +
    smallSigma0 (ws.getD (n - 15) 0) + ws.getD (n - 16) 0) % pow32

/-- One SHA-256 round: state `[a,b,c,d,e,f,g,h]` with constant `k` and
schedule word `w`. -/
def sha256Round (st : List Nat) (kw : Nat × Nat) : List Nat :=
  match st with
  | [a, b, c, d, e, f, g, h] =>
    let t1 := (h + bigSigma1 e + shaCh e f g + kw.1 + kw.2) % pow32
    let t2 := (bigSigma0 a + shaMaj a b c) % pow32
    [(t1 + t2) % pow32, a, b, c, (d + t1) % pow32, e, f, g]
  | other => other

/-- Compress one 16-word block into the running hash. -/
def sha256Block (h : List Nat) (block : List Nat) : List Nat :=
  let w := (List.range 48).foldl (fun ws _ => ws ++ [nextW ws]) block
  let st := (sha256K.zip w).foldl sha256Round h
  (h.zip st).map (fun p => (p.1 + p.2) % pow32)

/-- Big-endian bytes of a 32-bit word. -/
def wordBytesBE (w : Nat) : List Nat :=
  [(w >>> 24) &&& 255, (w >>> 16) &&& 255, (w >>> 8) &&& 255, w &&& 255]

/-- SHA-256 digest (32 bytes) of a byte list. -/
def sha256Bytes (msg : List Nat) : List Nat :=
  ((chunk16 (bytesToWords (sha256Pad msg))).foldl sha256Block sha256H0).foldr
    (fun w acc => wordBytesBE w ++ acc) []

/-- Hex digit character. -/
def hexDigitChar (n : Nat) : Char := if n < 10 then Char.ofNat (48 + n) else Char.ofNat (87 + n)

/-- Hex-encoded SHA-256 digest of a byte list; model of
`hashlib.sha256(...).hexdigest()`. -/
def sha256hex (msg : List Nat) : String :=
  ⟨(sha256Bytes msg).foldr (fun b acc => hexDigitChar (b >>> 4) :: hexDigitChar (b &&& 15) :: acc) []⟩

/-! ## String helpers used by the pipeline (kernel-evaluable models of the
Python string operations the source uses) -/

/-- Python `s.startswith(p)`. -/
def strStarts (s p : String) : Bool := decide (s.data.take p.data.length = p.data)

/-- Python `s.endswith(p)`. -/
def strEnds (s p : String) : Bool := decide (s.data.reverse.take p.data.length = p.data.reverse)

/-- Python `s[:n]`. -/
def strTake (s : String) (n : Nat) : String := ⟨s.data.take n⟩

/-- Python `sep.join(parts)`. -/
def joinWith (sep : String) : List String → String
  | [] => ""
  | [x] => x
  | x :: xs => x ++ sep ++ joinWith sep xs

/-- Split a character list at a separator character (Python `str.split(sep)`
semantics: the empty string splits to `[""]`). -/
def splitOnChar (sep : Char) : List Char → List (List Char)
  | [] => [[]]
  | c :: cs =>
    let r := splitOnChar sep cs
    if c = sep then [] :: r
    else
      match r with
      | h :: t => (c :: h) :: t
      | [] => [[c]]

/-- Python `s.split(sep)` for a one-character separator. -/
def strSplit (s : String) (sep : Char) : List String :=
  (splitOnChar sep s.data).map (fun l => ⟨l⟩)

/-- ASCII/Python whitespace for `str.strip()`. -/
def isSpaceChar (c : Char) : Bool :=
  c = ' ' || c = '\t' || c = '\n' || c = '\r' || c = '\x0b' || c = '\x0c'

/-- Python `s.strip()`. -/
def pyStrip (s : String) : String :=
  ⟨((s.data.dropWhile isSpaceChar).reverse.dropWhile isSpaceChar).reverse⟩

/-! ## ContentHasher: `calculate_directory_hash` (src/cecli_cat/utils.py) -/

/-- Outcome of `open(file_path, "rb")` + reads: the bytes, or an
`IOError`/`OSError`. -/
inductive ReadResult where
  | ok (bytes : List Nat)
  | ioError (msg : String)
deriving DecidableEq, Repr

/-- Files of one directory, as `os.walk` lists them (arbitrary order). -/
abbrev DirFiles := List (String × ReadResult)

/-- A directory tree as `os.walk(directory)` reports it: one entry per
directory in the tree (the hashed root included, and empty directories too),
keyed by the directory's path relative to the hashed root (`""` for the root
itself, slash-separated below it), with that directory's regular files.
Sorting these entries by the relative path gives the same order as Python's
`sorted(os.walk(directory))`, which sorts the `(root, dirs, files)` tuples by
the absolute `root` string (all roots share the prefix `directory`, and no two
are equal, so the `dirs`/`files` components never take part in the
comparison). -/
abbrev FsTree := List (String × DirFiles)

/-- utils.py line 11: `file.startswith("cat") and file.endswith(".yaml")`. -/
def isCatMetadataFile (name : String) : Bool := strStarts name "cat" && strEnds name ".yaml"

/-- utils.py line 16: the file's path relative to the hashed root. -/
def relPathOf (dir file : String) : String := if dir = "" then file else dir ++ "/" ++ file

/-- utils.py lines 10-25 for the (already sorted) files of one directory:
skip metadata files, otherwise hash the relative path (UTF-8) then the file's
bytes; a failed read propagates (fail fast/loud), so no partial stream ever
escapes. -/
def filesStreamE (dir : String) : DirFiles → Except String (List Nat)
  | [] => .ok []
  | (name, r) :: rest =>
    if isCatMetadataFile name then filesStreamE dir rest
    else
      match r with
      | .ok bs => (filesStreamE dir rest).map (fun s => utf8Encode (relPathOf dir name) ++ bs ++ s)
      | .ioError e => .error e

/-- utils.py line 9-25 over the (already sorted) directory entries. -/
def dirsStreamE : FsTree → Except String (List Nat)
  | [] => .ok []
  | (d, fs) :: rest =>
    match filesStreamE d (sortK Prod.fst fs) with
    | .error e => .error e
    | .ok s => (dirsStreamE rest).map (fun t => s ++ t)

/-- Model of `calculate_directory_hash` (utils.py lines 5-27): walk the tree
in sorted order, feed relative path + content of every non-metadata file to
SHA-256, and return the hex digest; an I/O error while reading any
non-metadata file aborts the whole computation. -/
def calculate_directory_hash (t : FsTree) : Except String String :=
  (dirsStreamE (sortK Prod.fst t)).map sha256hex

/-- A tree all of whose reads succeed, for stating the hash properties. -/
abbrev PureTree := List (String × List (String × List Nat))

/-- View a pure directory's files as fallible files whose reads succeed. -/
def pureFiles (fs : List (String × List Nat)) : DirFiles :=
  fs.map (fun p => (p.1, .ok p.2))

/-- View a pure tree as a tree whose reads all succeed. -/
def pureTree (t : PureTree) : FsTree := t.map (fun p => (p.1, pureFiles p.2))

/-- The digest input stream of one directory's (already sorted) files. -/
def filesStreamP (dir : String) : List (String × List Nat) → List Nat
  | [] => []
  | (name, bs) :: rest =>
    if isCatMetadataFile name then filesStreamP dir rest
    else utf8Encode (relPathOf dir name) ++ bs ++ filesStreamP dir rest

/-- The digest input stream of one directory (files sorted as the source
sorts them). -/
def dirStreamP (dir : String) (fs : List (String × List Nat)) : List Nat :=
  filesStreamP dir (sortK Prod.fst fs)

/-- The stream of a file list with no metadata skipping (used to reason about
already-filtered lists). -/
def plainStream (dir : String) (l : List (String × List Nat)) : List Nat :=
  l.foldr (fun p acc => utf8Encode (relPathOf dir p.1) ++ p.2 ++ acc) []

/-- Concatenated per-directory streams of an (already sorted) tree. -/
def treeFold (t : PureTree) : List Nat :=
  t.foldr (fun p acc => dirStreamP p.1 p.2 ++ acc) []

/-- The whole digest input stream of a pure tree: exactly the byte sequence
`calculate_directory_hash` feeds to SHA-256. -/
def treeStreamP (t : PureTree) : List Nat :=
  treeFold (sortK Prod.fst t)

/-! ## FixtureIndex: `load_index` (results.py lines 78-91) -/

/-- One row of a CSV file as `csv.DictReader` yields it. -/
abbrev CsvRow := List (String × String)

/-- A persisted index file: missing, or present with the rows the `csv`
reader delivers before either finishing cleanly (`readFails = false`) or
raising (`readFails = true`).  The reader is lazy, so on a malformed or
partially unreadable file the rows delivered before the failure have already
been processed; a file that cannot even be opened is `present [] true`. -/
inductive IndexSource where
  | missing
  | present (rows : List CsvRow) (readFails : Bool)
deriving DecidableEq, Repr

/-- `load_index` keys: `(row.get("language"), row.get("name"))`. -/
abbrev LegacyKey := Option String × Option String

/-- Model of `load_index` (results.py lines 78-91): missing file gives an
empty index; otherwise every delivered row is keyed by `(language, name)`;
a reader failure is only logged (the rows already added stay). -/
def load_index (src : IndexSource) : List (LegacyKey × CsvRow) :=
  match src with
  | .missing => []
  | .present rows _ =>
    rows.foldl (fun idx row => dictInsert idx (dictGet row "language", dictGet row "name") row) []

/-! ## RunDiscovery: `find_run_dir` (results.py lines 94-104) -/

/-- A filesystem path as its segments below the filesystem root. -/
abbrev FsPath := List String

/-- Model of the compiled pattern `^\d{4}-\d{2}-\d{2}-\d{2}-\d{2}-\d{2}--.*$`
(results.py line 97); digits are modelled as ASCII digits. -/
def isRunDirName (s : String) : Bool :=
  match s.data with
  | y1 :: y2 :: y3 :: y4 :: '-' :: m1 :: m2 :: '-' :: d1 :: d2 :: '-' :: h1 :: h2 :: '-'
      :: n1 :: n2 :: '-' :: s1 :: s2 :: '-' :: '-' :: _ =>
    [y1, y2, y3, y4, m1, m2, d1, d2, h1, h2, n1, n2, s1, s2].all Char.isDigit
  | _ => false

/-- Walk a reversed segment list outward until a run-directory name matches. -/
def findRunRev : List String → Option (List String)
  | [] => none
  | n :: rest => if isRunDirName n then some (n :: rest) else findRunRev rest

/-- Model of `find_run_dir` (results.py lines 94-104): starting from the
file's parent, walk ancestors up to (but excluding) the filesystem root and
return the first whose name matches the run pattern. -/
def find_run_dir (p : FsPath) : Option FsPath :=
  (findRunRev (p.reverse.drop 1)).map List.reverse

/-- `Path.name`: the last segment of a path. -/
def pathName (p : FsPath) : String := (p.getLast?).getD ""

/-! ## ResultResolver: the identity block of `run_aggregate`
(results.py lines 164-200) -/

/-- The sibling `cat.yaml` of a raw result: absent, present but
unreadable/unparseable (including non-dict YAML: any exception in the read
block is caught and logged), or parsed to a dict (`yaml.safe_load(f) or {}`
turns empty YAML into the empty dict). -/
inductive CatFile where
  | absent
  | corrupt
  | parsed (data : JObj)
deriving DecidableEq

/-- Model of results.py lines 164-200.  Returns `(uuid, test_hash)` exactly as
the Python variables end up: `None` (modelled `JValue.scalar .null`) when no
identity was found.  The legacy `(language, name)` lookup happens only in the
`cat.yaml`-absent branch and needs at least two relative path segments. -/
def resolveIdentity (index : List (LegacyKey × CsvRow)) (catFile : CatFile)
    (relParts : List String) : JValue × JValue :=
  match catFile with
  | .corrupt => (.scalar .null, .scalar .null)
  | .parsed d =>
    ((dictGet d "uuid").getD (.scalar .null), (dictGet d "hash").getD (.scalar .null))
  | .absent =>
    match relParts with
    | [] => (.scalar .null, .scalar .null)
    | lang :: rest =>
      match rest.getLast? with
      | none => (.scalar .null, .scalar .null)
      | some name =>
        match dictGet index (some lang, some name) with
        | some row =>
          ((dictGet row "uuid").elim (JValue.scalar .null) jstr,
           (dictGet row "hash").elim (JValue.scalar .null) jstr)
        | none => (.scalar .null, .scalar .null)

/-! ## Aggregator: `run_aggregate` (results.py lines 107-268) -/

/-- results.py lines 14-21. -/
def REQUIRED_KEYS : List String :=
  ["testdir", "testcase", "model", "edit_format", "tests_outcomes", "cost"]

/-- One discovered `.aider.results.json` file: its path (segments below the
scan root, ending in the filename), its parsed JSON body (`none` when the
file is unreadable or not valid JSON), and the state of the sibling
`cat.yaml` in the same directory. -/
structure RawFile where
  path : FsPath
  body : Option JObj
  catFile : CatFile
deriving DecidableEq

/-- One aggregation bucket (results.py line 121). -/
structure Bucket where
  results : List JObj
  rejected_count : Nat
deriving DecidableEq, Repr

/-- The nested `aggregated[run_name][model_name]` structure; both levels are
insertion-ordered dicts, and the model key is the raw JSON value of the
`model` field (Python uses it as a dict key whatever its type). -/
abbrev Buckets := List (String × List (JValue × Bucket))

/-- `res_json.get("model", "unknown")` (results.py line 155). -/
def getModel (res : JObj) : JValue := (dictGet res "model").getD (jstr "unknown")

/-- `all(k in res_json for k in REQUIRED_KEYS)` (results.py line 159). -/
def validateRequired (res : JObj) : Bool := REQUIRED_KEYS.all (fun k => dictHasKey res k)

/-- `test_dir.relative_to(run_dir)` as segments; the `except ValueError`
fallback (results.py lines 211-212) keeps the whole test dir. -/
def runRelativeParts (testDir runDir : FsPath) : List String :=
  if runDir.isPrefixOf testDir then testDir.drop runDir.length else testDir

/-- `str()` of a relative path: `"."` when it has no segments. -/
def relPathString (parts : List String) : String :=
  if parts = [] then "." else joinWith "/" parts

/-- The empty bucket a `defaultdict` access creates. -/
def emptyBucket : Bucket := ⟨[], 0⟩

/-- Fetch-or-create `aggregated[run][model]` and apply `f` to it. -/
def bucketsUpdate (agg : Buckets) (run : String) (model : JValue) (f : Bucket → Bucket) :
    Buckets :=
  let runMap := (dictGet agg run).getD []
  let bucket := (dictGet runMap model).getD emptyBucket
  dictInsert agg run (dictInsert runMap model (f bucket))

/-- The bucket currently stored for `(run, model)` (empty if never touched). -/
def bucketAt (agg : Buckets) (run : String) (model : JValue) : Bucket :=
  (dictGet ((dictGet agg run).getD []) model).getD emptyBucket

/-- The body of the `for res_file in files` loop (results.py lines 136-215)
for one file: skip when no run directory is found or the JSON cannot be read;
otherwise select the `(run, model)` bucket, validate (rejecting in-bucket on
failure), resolve identity, enrich, and append. -/
def processFile (index : List (LegacyKey × CsvRow)) (agg : Buckets) (f : RawFile) : Buckets :=
  match find_run_dir f.path with
  | none => agg
  | some runDir =>
    match f.body with
    | none => agg
    | some res =>
      let run_name := pathName runDir
      let model_name := getModel res
      if !(validateRequired res) then
        bucketsUpdate agg run_name model_name
          (fun b => { b with rejected_count := b.rejected_count + 1 })
      else
        let testDir := f.path.dropLast
        let relParts := runRelativeParts testDir runDir
        let idPair := resolveIdentity index f.catFile relParts
        let res1 := if idPair.1.truthy then dictInsert res "cat_uuid" idPair.1 else res
        let res2 := if idPair.2.truthy then dictInsert res1 "cat_hash" idPair.2 else res1
        let res3 := dictInsert res2 "run_relative_path" (jstr (relPathString relParts))
        bucketsUpdate agg run_name model_name (fun b => { b with results := b.results ++ [res3] })

/-- The aggregation loop over all discovered result files. -/
def processFiles (index : List (LegacyKey × CsvRow)) (files : List RawFile) : Buckets :=
  files.foldl (processFile index) []

/-- The `(run, model)` bucket key a raw file is assigned to, if any: a file
with a run directory and a parseable body is bucketed (before validation) by
the body's `model` field, defaulting to `"unknown"`. -/
def assignedBucket (f : RawFile) : Option (String × JValue) :=
  match find_run_dir f.path with
  | none => none
  | some runDir =>
    match f.body with
    | none => none
    | some res => some (pathName runDir, getModel res)

/-- How many of the discovered raw files were parsed and assigned to the
`(run, model)` bucket (counted before validation). -/
def countAssigned (files : List RawFile) (run : String) (model : JValue) : Nat :=
  (files.filter (fun f => decide (assignedBucket f = some (run, model)))).length

/-- The per-bucket record-count statistic: validated results kept plus
rejections. -/
def statsAt (agg : Buckets) (run : String) (model : JValue) : Nat :=
  (bucketAt agg run model).results.length + (bucketAt agg run model).rejected_count

/-- One artifact written by results.py lines 225-255: the file
`out_dir/model/run/results.json` with its summary and results. -/
structure Artifact where
  model : String
  run : String
  count : Nat
  pass_count : Nat
  rejected : Nat
  results : List JObj
deriving DecidableEq

/-- Python `any(v)` over a JSON value: iterable values reduce to whether they
contain a truthy element (characters of a nonempty string and keys of a dict
are truthy unless empty), everything else raises `TypeError`. -/
def pyAnyTruthy : JValue → Except String Bool
  | .arr xs => .ok (xs.any JScalar.truthy)
  | .scalar (.str s) => .ok (!(decide (s = "")))
  | .obj kvs => .ok (kvs.any (fun p => !(decide (p.1 = ""))))
  | _ => .error "TypeError: argument of type is not iterable"

/-- `sum(1 for r in results if any(r.get("tests_outcomes", [])))`
(results.py line 231); the first ill-typed `tests_outcomes` raises. -/
def passCountE : List JObj → Except String Nat
  | [] => .ok 0
  | r :: rest => do
    let b ← pyAnyTruthy ((dictGet r "tests_outcomes").getD (.arr []))
    let n ← passCountE rest
    pure (if b then n + 1 else n)

/-- `out_dir / model_name` (results.py line 245): path division demands a
string and raises `TypeError` otherwise; this line is outside any
`try`/`except`. -/
def pathSegE : JValue → Except String String
  | .scalar (.str s) => .ok s
  | _ => .error "TypeError: argument should be a str or an os.PathLike object"

/-- The inner output loop (results.py lines 226-255) over one run's models.
Per-bucket `OSError` on mkdir/write is caught and logged, so it is not part
of the value; `TypeError` from line 231 or line 245 is not caught and aborts
the whole command. -/
def summarizeRun (run : String) : List (JValue × Bucket) → Except String (List Artifact)
  | [] => .ok []
  | (model, b) :: rest => do
    let p ← passCountE b.results
    let seg ← pathSegE model
    let arts ← summarizeRun run rest
    pure ({ model := seg, run := run, count := b.results.length, pass_count := p,
            rejected := b.rejected_count, results := b.results } :: arts)

/-- The output loop (results.py lines 225-255) over all buckets. -/
def summarize : Buckets → Except String (List Artifact)
  | [] => .ok []
  | (run, ms) :: rest => do
    let a ← summarizeRun run ms
    let b ← summarize rest
    pure (a ++ b)

/-- The whole of `run_aggregate` after loading the index: process every
discovered file, then write one artifact per bucket.  The uncaught
`TypeError`s of the output loop surface as `.error`. -/
def run_aggregate (index : List (LegacyKey × CsvRow)) (files : List RawFile) :
    Except String (List Artifact) :=
  summarize (processFiles index files)

/-! ## Consolidator: `run_consolidate` (results.py lines 271-448) -/

/-- Python `str(v)` (used by `str(outcomes)` on a non-list value): differs
from the csv cell rendering only on `None`.  Numbers are rendered from the
mantissa/exponent pair; no claim depends on the numeric spelling. -/
def pyStr : JValue → String
  | .scalar .null => "None"
  | .scalar (.bool true) => "True"
  | .scalar (.bool false) => "False"
  | .scalar (.num m e) => if e = 0 then toString m else toString m ++ "e" ++ toString e
  | .scalar (.str s) => s
  | .arr _ => "<list>"
  | .obj _ => "<dict>"

/-- One entry of the uuid-keyed index built at results.py lines 280-295: the
raw CSV row plus the parsed `set_list`. -/
structure CatEntry where
  row : CsvRow
  set_list : List String
deriving DecidableEq

/-- `[s.strip() for s in sets_str.split(";") if s.strip()]`
(results.py lines 291-293). -/
def parseSets (s : String) : List String :=
  ((strSplit s ';').map pyStrip).filter (fun x => !(decide (x = "")))

/-- Model of results.py lines 280-300: build the uuid-keyed index from
`index.csv`; rows whose `uuid` is missing or empty are skipped; like
`load_index`, a reader failure midway keeps the rows already processed. -/
def buildCatIndex (src : IndexSource) : List (String × CatEntry) :=
  match src with
  | .missing => []
  | .present rows _ =>
    rows.foldl (fun idx row =>
      match dictGet row "uuid" with
      | some uid =>
        if uid = "" then idx
        else dictInsert idx uid { row := row, set_list := parseSets ((dictGet row "sets").getD "") }
      | none => idx) []

/-- results.py lines 333-339. -/
def CONSOLIDATE_EXCLUDE : List String :=
  ["tests_outcomes", "chat_hashes", "cat_uuid", "cat_hash", "source"]

/-- `isinstance(v, (list, dict))` (results.py line 341). -/
def isContainer : JValue → Bool
  | .arr _ => true
  | .obj _ => true
  | .scalar _ => false

/-- results.py lines 345-351: render the outcome list as a `P`/`F` string
(per-position truthiness), or `str(outcomes)` when it is not a list. -/
def outcomesStr : JValue → String
  | .arr xs => ⟨xs.foldr (fun x acc => (if x.truthy then 'P' else 'F') :: acc) []⟩
  | v => pyStr v

/-- `idx_hash and res_hash and idx_hash != res_hash` (results.py line 369):
the note is built only when both hashes are truthy and differ (a Python `!=`
between a string and a non-string is true). -/
def hashMismatch (idxHash : Option String) (res_hash : JValue) : Bool :=
  match idxHash with
  | some ih => !(decide (ih = "")) && res_hash.truthy && !(decide (res_hash = jstr ih))
  | none => false

/-- `if uuid in cat_index` (results.py line 364): a dict lookup only ever
hits when the uuid value is a string equal to a key. -/
def lookupUuid (catIndex : List (String × CatEntry)) : JValue → Option CatEntry
  | .scalar (.str s) => dictGet catIndex s
  | _ => none

/-- results.py lines 360-381: the notes, the `cat_sets`, and the
possibly-language-backfilled row, by truthiness of the result's uuid and the
index lookup. -/
def buildRowNotesSets (catIndex : List (String × CatEntry)) (uuid res_hash : JValue)
    (row4 : JObj) : List String × List String × JObj :=
  if uuid.truthy then
    match lookupUuid catIndex uuid with
    | some e =>
      (if hashMismatch (dictGet e.row "hash") res_hash then
         ["Hash mismatch (index: " ++ strTake ((dictGet e.row "hash").getD "") 8 ++ "...)"]
       else [],
       e.set_list,
       if !(dictHasKey row4 "language") || decide (dictGet row4 "language" = some (jstr "unknown")) then
         dictInsert row4 "language" (jstr ((dictGet e.row "language").getD "unknown"))
       else row4)
    | none => (["UUID not found in index"], [], row4)
  else (["No UUID in result"], [], row4)

/-- Model of the per-result body of `run_consolidate` (results.py lines
325-393): build one flattened row; returns the row and the `cat_sets` that
row contributed to `all_sets`. -/
def buildRow (catIndex : List (String × CatEntry)) (run_name : String) (res : JObj) :
    JObj × List String :=
  let row1 := res.foldl
    (fun r kv =>
      if !(CONSOLIDATE_EXCLUDE.contains kv.1) && !(isContainer kv.2) then
        dictInsert r kv.1 kv.2
      else r)
    [("run", jstr run_name)]
  let row2 := dictInsert row1 "tests_outcomes"
    (jstr (outcomesStr ((dictGet res "tests_outcomes").getD (.arr []))))
  let uuid := (dictGet res "cat_uuid").getD (.scalar .null)
  let res_hash := (dictGet res "cat_hash").getD (.scalar .null)
  let row3 := dictInsert row2 "uuid" uuid
  let row4 := dictInsert row3 "hash" res_hash
  let step := buildRowNotesSets catIndex uuid res_hash row4
  let row6 := dictInsert step.2.2 "sets" (jstr (joinWith "," step.2.1))
  let row7 := step.2.1.foldl (fun r s => dictInsert r ("set_" ++ s) (.scalar (.num 1 0))) row6
  let row8 := dictInsert row7 "notes" (jstr (joinWith "; " step.1))
  (row8, step.2.1)

/-- One aggregated artifact as the consolidation pass sees it: the name of
its parent directory (the run name, results.py line 323) and its `results`
list (`none` when the file is unreadable, not valid JSON, or its `results`
value is not iterable — all caught by the per-file `try` and skipped).
Results are dicts: this pipeline's own aggregation stage only ever writes
dict results. -/
structure ConsArtifact where
  parentName : String
  data : Option (List JObj)
deriving DecidableEq

/-- Rows (with their contributed `cat_sets`) of all artifacts in scan order
(results.py lines 314-396). -/
def consolidateRows (catIndex : List (String × CatEntry)) (artifacts : List ConsArtifact) :
    List (JObj × List String) :=
  artifacts.foldr
    (fun a acc =>
      match a.data with
      | none => acc
      | some results => results.map (buildRow catIndex a.parentName) ++ acc)
    []

/-- results.py lines 414-426. -/
def PRIORITY_COLUMNS : List String :=
  ["run", "model", "language", "testcase", "uuid", "hash", "tests_outcomes", "cost",
   "duration", "sets", "notes"]

/-- The consolidated table: ordered header and the zero-filled rows. -/
structure ConsTable where
  header : List String
  rows : List JObj
deriving DecidableEq

/-- Model of the table-finalisation part of `run_consolidate` (results.py
lines 310-432): build all rows, collect `all_sets`, zero-fill the indicator
columns on every row, and order the columns (priority first, then the
remaining non-indicator columns sorted, then the indicator columns sorted by
tag).  Python's `set`s for `all_sets`/`fieldnames` are modelled as
deduplicated lists; every use is membership or sorted iteration, so the
set's iteration order never matters. -/
def consolidateAllSets (catIndex : List (String × CatEntry)) (artifacts : List ConsArtifact) :
    List String :=
  ((consolidateRows catIndex artifacts).foldr (fun p acc => p.2 ++ acc) []).dedup

/-- `set_cols` of results.py line 405: one indicator column per distinct tag,
sorted by tag. -/
def consolidateSetCols (catIndex : List (String × CatEntry)) (artifacts : List ConsArtifact) :
    List String :=
  (sortK id (consolidateAllSets catIndex artifacts)).map (fun s => "set_" ++ s)

/-- results.py lines 407-411 for one row: explicitly zero-fill every
indicator column the row does not already have. -/
def zeroFillRow (set_cols : List String) (r : JObj) : JObj :=
  set_cols.foldl (fun r c => if dictHasKey r c then r else dictInsert r c (.scalar (.num 0 0))) r

/-- `fieldnames` after the zero-fill loop (results.py lines 399-408): the
union of all row keys plus every indicator column, as a deduplicated list
(Python's `set`; only membership and sorted iteration are ever used). -/
def consolidateFieldnames (catIndex : List (String × CatEntry))
    (artifacts : List ConsArtifact) : List String :=
  let fieldnames := (((consolidateRows catIndex artifacts).map Prod.fst).foldr
    (fun r acc => r.map Prod.fst ++ acc) []).dedup
  fieldnames ++ (consolidateSetCols catIndex artifacts).filter
    (fun c => !(fieldnames.contains c))

/-- `ordered` (results.py line 427). -/
def consolidateOrdered (catIndex : List (String × CatEntry))
    (artifacts : List ConsArtifact) : List String :=
  PRIORITY_COLUMNS.filter (fun f => (consolidateFieldnames catIndex artifacts).contains f)

/-- `others` (results.py lines 428-430). -/
def consolidateOthers (catIndex : List (String × CatEntry))
    (artifacts : List ConsArtifact) : List String :=
  sortK id ((consolidateFieldnames catIndex artifacts).filter
    (fun f => !((consolidateOrdered catIndex artifacts).contains f) && !(strStarts f "set_")))

/-- `final_header` (results.py line 432). -/
def consolidateHeader (catIndex : List (String × CatEntry))
    (artifacts : List ConsArtifact) : List String :=
  consolidateOrdered catIndex artifacts ++ consolidateOthers catIndex artifacts
    ++ consolidateSetCols catIndex artifacts

def run_consolidate (catIndex : List (String × CatEntry)) (artifacts : List ConsArtifact) :
    ConsTable :=
  { header := consolidateHeader catIndex artifacts,
    rows := ((consolidateRows catIndex artifacts).map Prod.fst).map
      (zeroFillRow (consolidateSetCols catIndex artifacts)) }

/-- One rendered csv cell: `csv.DictWriter` writes `str(value)` with `None`
and missing keys (`restval`) as the empty field (both render like an explicit
`null`). -/
def renderCell (r : JObj) (f : String) : String :=
  cellStr ((dictGet r f).getD (.scalar .null))

/-- csv minimal quoting: quote a field containing separator, quote or
newline, doubling inner quotes. -/
def csvQuote (s : String) : String :=
  if s.data.any (fun c => c = ',' || c = '"' || c = '\n' || c = '\r') then
    "\"" ++ ⟨s.data.foldr (fun c acc => if c = '"' then '"' :: '"' :: acc else c :: acc) []⟩ ++ "\""
  else s

/-- One csv line (csv's default line terminator is CRLF). -/
def renderCsvLine (cells : List String) : String := joinWith "," (cells.map csvQuote) ++ "\r\n"

/-- The bytes of the consolidated csv file. -/
def renderCsv (t : ConsTable) : String :=
  renderCsvLine t.header ++
    joinWith "" (t.rows.map (fun r => renderCsvLine (t.header.map (renderCell r))))

/-- The contents of the output file after `run_consolidate` writes it
(results.py lines 436-441): `open(out_file, "w")` truncates, so whatever the
file held before (`prevContents`) is discarded, never merged. -/
def consolidateOutputFile (catIndex : List (String × CatEntry))
    (artifacts : List ConsArtifact) (prevContents : Option String) : String :=
  renderCsv (run_consolidate catIndex artifacts)

/-- How an aggregation artifact is laid out for the consolidation scan: it is
written to `out_dir/model/run/results.json`, so its parent directory name is
the run name, and its `results` list is read back as written. -/
def artifactToCons (a : Artifact) : ConsArtifact :=
  { parentName := a.run, data := some a.results }

/-! ## Concrete inputs for the scenario claims and counterexamples -/

/-- The raw result of the spec's end-to-end scenario:
`{"model":"gpt","testdir":"x","testcase":"leap","edit_format":"diff",
"tests_outcomes":[true,false],"cost":0.1}`. -/
def c5Record : JObj :=
  [("model", jstr "gpt"), ("testdir", jstr "x"), ("testcase", jstr "leap"),
   ("edit_format", jstr "diff"), ("tests_outcomes", .arr [.bool true, .bool false]),
   ("cost", .scalar (.num 1 (-1)))]

/-- Its `.aider.results.json` inside
`2024-01-01-00-00-00--demo/go/exercises/practice/leap`, with no `cat.yaml`. -/
def c5File : RawFile :=
  { path := ["2024-01-01-00-00-00--demo", "go", "exercises", "practice", "leap",
             ".aider.results.json"],
    body := some c5Record, catFile := .absent }

/-- The index row `language=go,name=leap,uuid=U1,hash=H1`. -/
def c5Rows : List CsvRow := [[("language", "go"), ("name", "leap"), ("uuid", "U1"), ("hash", "H1")]]

/-- The record `c5Record` as the aggregation loop enriches and stores it. -/
def c5Enriched : JObj :=
  c5Record ++
    [("cat_uuid", jstr "U1"), ("cat_hash", jstr "H1"),
     ("run_relative_path", jstr "go/exercises/practice/leap")]

/-- A well-formed, fully validated raw result whose `tests_outcomes` is the
number `5`: every required key is present, so it passes validation and is
appended to its bucket, and then `any(5)` at results.py line 231 raises an
uncaught `TypeError`. -/
def c3BadRecord : JObj :=
  [("testdir", jstr "x"), ("testcase", jstr "t"), ("model", jstr "m"),
   ("edit_format", jstr "whole"), ("tests_outcomes", .scalar (.num 5 0)),
   ("cost", .scalar (.num 1 0))]

/-- The bad record inside a perfectly ordinary run directory. -/
def c3BadFile : RawFile :=
  { path := ["2024-01-01-00-00-00--demo", "go", "leap", ".aider.results.json"],
    body := some c3BadRecord, catFile := .absent }

/-- An index row that a lazily-failing reader delivers before raising. -/
def c9Row : CsvRow := [("language", "go"), ("name", "leap"), ("uuid", "U1")]

/-- Index contents for the C7 counterexample: fixture `U1` carries tag `foo`. -/
def c7Rows : List CsvRow :=
  [[("language", "go"), ("name", "leap"), ("uuid", "U1"), ("hash", "H1"), ("sets", "foo")]]

/-- First result: resolves to `U1`, so tag `foo` enters `all_sets` and the
header gains the indicator column `set_foo`. -/
def c7Res1 : JObj :=
  [("model", jstr "m"), ("tests_outcomes", .arr [.bool true]), ("cat_uuid", jstr "U1")]

/-- Second result: has no uuid but carries a scalar field literally named
`set_foo`, which the verbatim copy keeps. -/
def c7Res2 : JObj :=
  [("model", jstr "m"), ("tests_outcomes", .arr [.bool false]), ("set_foo", jstr "hello")]

/-- The aggregated artifact holding both C7 results. -/
def c7Artifact : ConsArtifact :=
  { parentName := "2024-01-01-00-00-00--demo", data := some [c7Res1, c7Res2] }

/-- Third C7 result: no uuid and no `set_`-named field at all, so its fixture
carries no tag and its `set_foo` cell must be explicitly zero-filled. -/
def c7Res0 : JObj := [("model", jstr "m"), ("tests_outcomes", .arr [])]

/-- The aggregated artifact exercising all three indicator-cell cases:
tag carried (1), tag absent (explicit 0), and verbatim field copy. -/
def c7ArtifactW : ConsArtifact :=
  { parentName := "2024-01-01-00-00-00--demo", data := some [c7Res1, c7Res0, c7Res2] }

/-- A raw result whose only type anomaly is `cost: "not-a-number"`; all six
required keys are present. -/
def c8Record : JObj :=
  [("testdir", jstr "x"), ("testcase", jstr "t"), ("model", jstr "m"),
   ("edit_format", jstr "whole"), ("tests_outcomes", .arr [.bool true]),
   ("cost", jstr "not-a-number")]

/-- The C8 record in a run directory. -/
def c8File : RawFile :=
  { path := ["2024-01-01-00-00-00--demo", "go", "leap", ".aider.results.json"],
    body := some c8Record, catFile := .absent }

/-- C1 rename counterexample, before: a directory with files `ab` (bytes of
`"aba"`) and `aba` (empty). -/
def c1TreeBefore : PureTree := [("", [("ab", [97, 98, 97]), ("aba", [])])]

/-- C1 rename counterexample, after: the file `ab` renamed to `ba`, its
content untouched; the other file untouched. -/
def c1TreeAfter : PureTree := [("", [("aba", []), ("ba", [97, 98, 97])])]

/-! ## Theorems

Sanity checks for the SHA-256 model against the standard test vectors. -/

set_option maxRecDepth 10000 in
/-- The SHA-256 digest of the empty input, as computed by the model, is the
standard constant. -/
theorem sha256hex_empty_input :
    sha256hex [] = "e3b0c44298fc1c149afbf4c8996fb92427ae41e4649b934ca495991b7852b855" := by decide

set_option maxRecDepth 10000 in
/-- The SHA-256 digest of `"abc"`, as computed by the model, is the standard
test vector. -/
theorem sha256hex_abc :
    sha256hex [97, 98, 99] =
      "ba7816bf8f01cfea414140de5dae2223b00361a396177a9cb410ff61f20015ad" := by decide

/-! ### Association-list (Python dict) lemmas -/

theorem dictGet_map_update [DecidableEq α] (d : List (α × β)) (k : α) (v : β) :
    dictGet (d.map (fun p => if p.1 = k then (k, v) else p)) k =
      if dictHasKey d k then some v else none := by
  induction d with
  | nil => rfl
  | cons p rest ih =>
    by_cases hp : p.1 = k
    · simp [dictGet, dictHasKey, hp]
    · simp [dictGet, dictHasKey, hp, ih]

theorem dictGet_append_single_self [DecidableEq α] (d : List (α × β)) (k : α) (v : β)
    (h : dictHasKey d k = false) : dictGet (d ++ [(k, v)]) k = some v := by
  induction d with
  | nil => simp [dictGet]
  | cons p rest ih =>
    simp only [dictHasKey, Bool.or_eq_false_iff, decide_eq_false_iff_not] at h
    simp [dictGet, h.1, ih h.2]

theorem dictGet_insert_self [DecidableEq α] (d : List (α × β)) (k : α) (v : β) :
    dictGet (dictInsert d k v) k = some v := by
  unfold dictInsert
  by_cases h : dictHasKey d k
  · simp [h, dictGet_map_update]
  · simp only [h, if_false, Bool.false_eq_true]
    exact dictGet_append_single_self d k v (by simp [h])

theorem dictGet_map_update_ne [DecidableEq α] (d : List (α × β)) (k k2 : α) (v : β)
    (h : k2 ≠ k) :
    dictGet (d.map (fun p => if p.1 = k then (k, v) else p)) k2 = dictGet d k2 := by
  induction d with
  | nil => rfl
  | cons p rest ih =>
    by_cases hp : p.1 = k
    · have h1 : ¬ (k = k2) := fun hh => h hh.symm
      have h2 : ¬ (p.1 = k2) := by rw [hp]; exact h1
      simp [dictGet, hp, h1, h2, ih]
    · by_cases hp2 : p.1 = k2
      · simp [dictGet, hp, hp2, h]
      · simp [dictGet, hp, hp2, ih]

theorem dictGet_append_single_ne [DecidableEq α] (d : List (α × β)) (k k2 : α) (v : β)
    (h : k2 ≠ k) : dictGet (d ++ [(k, v)]) k2 = dictGet d k2 := by
  induction d with
  | nil => simp [dictGet, Ne.symm h]
  | cons p rest ih =>
    by_cases hp2 : p.1 = k2
    · simp [dictGet, hp2]
    · simp [dictGet, hp2, ih]

theorem dictGet_insert_ne [DecidableEq α] (d : List (α × β)) (k k2 : α) (v : β)
    (h : k2 ≠ k) : dictGet (dictInsert d k v) k2 = dictGet d k2 := by
  unfold dictInsert
  by_cases hc : dictHasKey d k
  · simp [hc, dictGet_map_update_ne d k k2 v h]
  · simp [hc, dictGet_append_single_ne d k k2 v h]

theorem dictHasKey_map_update [DecidableEq α] (d : List (α × β)) (k k2 : α) (v : β) :
    dictHasKey (d.map (fun p => if p.1 = k then (k, v) else p)) k2 = dictHasKey d k2 := by
  induction d with
  | nil => rfl
  | cons p rest ih =>
    by_cases hp : p.1 = k
    · simp [dictHasKey, hp, ih]
    · simp [dictHasKey, hp, ih]

theorem dictHasKey_append_single [DecidableEq α] (d : List (α × β)) (k k2 : α) (v : β) :
    dictHasKey (d ++ [(k, v)]) k2 = (dictHasKey d k2 || decide (k = k2)) := by
  induction d with
  | nil => simp [dictHasKey]
  | cons p rest ih => simp [dictHasKey, ih, Bool.or_assoc]

theorem dictHasKey_insert [DecidableEq α] (d : List (α × β)) (k k2 : α) (v : β) :
    dictHasKey (dictInsert d k v) k2 = (dictHasKey d k2 || decide (k = k2)) := by
  unfold dictInsert
  by_cases hc : dictHasKey d k
  · by_cases h2 : k = k2
    · subst h2; simp [hc, dictHasKey_map_update]
    · simp [hc, h2, dictHasKey_map_update]
  · simp [hc, dictHasKey_append_single]

theorem dictHasKey_true_of_get [DecidableEq α] (d : List (α × β)) (k : α) (v : β)
    (h : dictGet d k = some v) : dictHasKey d k = true := by
  induction d with
  | nil => simp [dictGet] at h
  | cons p rest ih =>
    by_cases hp : p.1 = k
    · simp [dictHasKey, hp]
    · simp only [dictGet, hp, if_false] at h
      simp [dictHasKey, ih h]

theorem dictGet_none_of_no_key [DecidableEq α] (d : List (α × β)) (k : α)
    (h : dictHasKey d k = false) : dictGet d k = none := by
  induction d with
  | nil => rfl
  | cons p rest ih =>
    simp only [dictHasKey, Bool.or_eq_false_iff, decide_eq_false_iff_not] at h
    simp [dictGet, h.1, ih h.2]

/-! ### Helper lemmas about `load_index` -/

theorem load_index_foldl_get_ne (rows : List CsvRow) (idx : List (LegacyKey × CsvRow))
    (key : LegacyKey)
    (h : ∀ row ∈ rows, (dictGet row "language", dictGet row "name") ≠ key) :
    dictGet (rows.foldl
        (fun idx row => dictInsert idx (dictGet row "language", dictGet row "name") row) idx)
      key = dictGet idx key := by
  induction rows generalizing idx with
  | nil => rfl
  | cons row rest ih =>
    simp only [List.foldl_cons]
    rw [ih _ (fun r hr => h r (by simp [hr]))]
    exact dictGet_insert_ne _ _ _ _ (Ne.symm (h row (by simp)))

/-! ### Claim theorems (part 1) -/

/-- C4: a present-but-corrupt `cat.yaml` yields no identity (both components
`None`), and whenever the metadata file is present at all (corrupt or parsed)
the resolution result does not depend on the legacy index — the legacy
`(language, name)` path-inference strategy is reached only in the absent
branch. -/
theorem C4_corrupt_metadata_resolution :
    (∀ (index : List (LegacyKey × CsvRow)) (relParts : List String),
      resolveIdentity index .corrupt relParts = (.scalar .null, .scalar .null))
    ∧ (∀ (index : List (LegacyKey × CsvRow)) (catFile : CatFile) (relParts : List String),
        catFile ≠ CatFile.absent →
        resolveIdentity index catFile relParts = resolveIdentity [] catFile relParts) := by
  constructor
  · intro index relParts; rfl
  · intro index catFile relParts h
    cases catFile with
    | absent => exact absurd rfl h
    | corrupt => rfl
    | parsed d => rfl

/-- Witness for C4: the corrupt case yields no identity even though the index
holds a matching `(go, leap)` row, and a parsed metadata file ignores the
index entirely. -/
theorem C4_witness :
    resolveIdentity (load_index (.present c5Rows false)) .corrupt ["go", "leap"] =
      (.scalar .null, .scalar .null)
    ∧ resolveIdentity (load_index (.present c5Rows false)) (.parsed []) ["go", "leap"] =
        resolveIdentity [] (.parsed []) ["go", "leap"] :=
  ⟨C4_corrupt_metadata_resolution.1 _ _,
   C4_corrupt_metadata_resolution.2 _ _ _ (by decide)⟩

/-- C5: the spec's end-to-end scenario.  Aggregating the single raw result in
`2024-01-01-00-00-00--demo/go/exercises/practice/leap` against the index row
`language=go,name=leap,uuid=U1,hash=H1` yields exactly one bucket — keyed by
the `…--demo` run and model `gpt` — holding one result enriched with
`cat_uuid=U1`, `cat_hash=H1`, with summary `count=1, pass=1, rejected=0`; and
consolidating the written artifact yields exactly one row with
`tests_outcomes="PF"` and `uuid=U1`. -/
theorem C5_end_to_end_scenario :
    run_aggregate (load_index (.present c5Rows false)) [c5File] =
      .ok [{ model := "gpt", run := "2024-01-01-00-00-00--demo", count := 1, pass_count := 1,
             rejected := 0, results := [c5Enriched] }]
    ∧ dictGet c5Enriched "cat_uuid" = some (jstr "U1")
    ∧ dictGet c5Enriched "cat_hash" = some (jstr "H1")
    ∧ (run_consolidate (buildCatIndex (.present c5Rows false))
        [artifactToCons { model := "gpt", run := "2024-01-01-00-00-00--demo", count := 1,
                          pass_count := 1, rejected := 0, results := [c5Enriched] }]).rows.map
        (fun r => (dictGet r "tests_outcomes", dictGet r "uuid")) =
      [(some (jstr "PF"), some (jstr "U1"))] := by decide

/-- C6: the consolidated output file is a function of the aggregated
artifacts and the index alone — the previous contents of the output file
never influence it (mode `"w"` truncates, so the table is fully replaced,
never merged) — and re-running on unchanged inputs reproduces the same bytes. -/
theorem C6_consolidation_idempotent :
    ∀ (catIndex : List (String × CatEntry)) (artifacts : List ConsArtifact)
      (prev1 prev2 : Option String),
      consolidateOutputFile catIndex artifacts prev1 =
        consolidateOutputFile catIndex artifacts prev2
      ∧ consolidateOutputFile catIndex artifacts
          (some (consolidateOutputFile catIndex artifacts prev1)) =
        consolidateOutputFile catIndex artifacts prev1 :=
  fun _ _ _ _ => ⟨rfl, rfl⟩

/-- C8: validation is pure key-presence — a record validates exactly when all
six required keys are present, the stored values never matter — and the
concrete record with `cost: "not-a-number"` passes validation and lands in
its bucket's result sequence (with its string cost intact). -/
theorem C8_validation_presence_only :
    (∀ res : JObj, validateRequired res = true ↔ ∀ k ∈ REQUIRED_KEYS, dictHasKey res k = true)
    ∧ (∀ (res : JObj) (k : String) (v w : JValue),
        validateRequired (dictInsert res k v) = validateRequired (dictInsert res k w))
    ∧ validateRequired c8Record = true
    ∧ (bucketAt (processFiles [] [c8File]) "2024-01-01-00-00-00--demo" (jstr "m")).results.length = 1
    ∧ (bucketAt (processFiles [] [c8File]) "2024-01-01-00-00-00--demo" (jstr "m")).rejected_count = 0
    ∧ dictGet ((bucketAt (processFiles [] [c8File]) "2024-01-01-00-00-00--demo"
        (jstr "m")).results.headD []) "cost" = some (jstr "not-a-number") := by
  refine ⟨?_, ?_, by decide, by decide, by decide, by decide⟩
  · intro res
    simp [validateRequired, List.all_eq_true]
  · intro res k v w
    simp only [validateRequired, dictHasKey_insert]

/-- C3 (the code violates the claim): a fully validated record whose
`tests_outcomes` is the number `5` is appended to its bucket, and then the
output loop's `any(r.get("tests_outcomes", []))` (results.py line 231, outside
any `try`) raises an uncaught `TypeError` that terminates the whole
aggregation run — an error that is neither a ContentHasher I/O error nor
recovered at the point of discovery. -/
theorem C3_ill_typed_record_aborts_aggregation :
    validateRequired c3BadRecord = true
    ∧ (bucketAt (processFiles [] [c3BadFile]) "2024-01-01-00-00-00--demo"
        (jstr "m")).results.length = 1
    ∧ run_aggregate [] [c3BadFile] = .error "TypeError: argument of type is not iterable" := by
  decide

/-- C9 counterexample: a malformed index source whose reader delivers one row
and then raises does not load as an empty index — the delivered row is kept
and its legacy lookup succeeds, contradicting the claim that the loader
returns an index containing no entries. -/
theorem C9_counterexample :
    load_index (.present [c9Row] true) ≠ []
    ∧ dictGet (load_index (.present [c9Row] true)) (some "go", some "leap") = some c9Row := by
  decide

/-- C9 amended: an unreadable index file (missing, or failing before any row)
loads as an empty index; in general a malformed or partially unreadable
source loads as exactly the rows delivered before the failure (the failure
itself is only logged and changes nothing); a lookup for any key not among
the delivered rows misses; and loading never raises. -/
theorem C9_partial_index :
    load_index .missing = []
    ∧ (∀ b, load_index (.present [] b) = [])
    ∧ (∀ rows b, load_index (.present rows b) = load_index (.present rows false))
    ∧ (∀ (rows : List CsvRow) (b : Bool) (key : LegacyKey),
        (∀ row ∈ rows, (dictGet row "language", dictGet row "name") ≠ key) →
        dictGet (load_index (.present rows b)) key = none) := by
  refine ⟨rfl, fun b => rfl, fun rows b => rfl, ?_⟩
  intro rows b key h
  simpa using load_index_foldl_get_ne rows [] key h

/-- Witness for C9: a lookup for a key no delivered row carries misses, by
the amended theorem, even on a source that failed mid-read. -/
theorem C9_witness :
    dictGet (load_index (.present [c9Row] true)) (some "zz", some "zz") = none :=
  C9_partial_index.2.2.2 [c9Row] true (some "zz", some "zz") (by decide)

/-! ### Aggregation bucket lemmas (towards C2) -/

theorem bucketAt_update_self (agg : Buckets) (run : String) (model : JValue)
    (g : Bucket → Bucket) :
    bucketAt (bucketsUpdate agg run model g) run model = g (bucketAt agg run model) := by
  unfold bucketsUpdate bucketAt
  rw [dictGet_insert_self]
  simp [dictGet_insert_self]

theorem bucketAt_update_ne (agg : Buckets) (rn : String) (mn : JValue) (g : Bucket → Bucket)
    (run : String) (model : JValue) (h : ¬(run = rn ∧ model = mn)) :
    bucketAt (bucketsUpdate agg rn mn g) run model = bucketAt agg run model := by
  unfold bucketsUpdate bucketAt
  by_cases hr : run = rn
  · subst hr
    have hm : model ≠ mn := fun hm => h ⟨rfl, hm⟩
    rw [dictGet_insert_self]
    simp [dictGet_insert_ne _ _ _ _ hm]
  · rw [dictGet_insert_ne _ _ _ _ hr]

theorem validate_insert (res : JObj) (k : String) (v : JValue)
    (h : validateRequired res = true) : validateRequired (dictInsert res k v) = true := by
  simp only [validateRequired, List.all_eq_true] at *
  intro x hx
  rw [dictHasKey_insert]
  simp [h x hx]

theorem statsAt_bucketsUpdate (agg : Buckets) (rn : String) (mn : JValue)
    (g : Bucket → Bucket) (run : String) (model : JValue)
    (hg : ∀ b, (g b).results.length + (g b).rejected_count
      = b.results.length + b.rejected_count + 1) :
    statsAt (bucketsUpdate agg rn mn g) run model =
      statsAt agg run model + (if (rn, mn) = (run, model) then 1 else 0) := by
  by_cases hk : (rn, mn) = (run, model)
  · rw [Prod.mk.injEq] at hk
    obtain ⟨h1, h2⟩ := hk
    subst h1; subst h2
    rw [if_pos rfl]
    unfold statsAt
    rw [bucketAt_update_self]
    exact hg _
  · have hne : ¬(run = rn ∧ model = mn) := by
      intro hc
      obtain ⟨h1, h2⟩ := hc
      subst h1; subst h2
      exact hk rfl
    rw [if_neg hk]
    unfold statsAt
    rw [bucketAt_update_ne agg rn mn g run model hne]
    rfl

/-- Effect of processing one raw file on any bucket's record count: the
assigned bucket (if any) gains exactly one record — rejected or kept — and
every other bucket is untouched. -/
theorem statsAt_processFile (idx : List (LegacyKey × CsvRow)) (agg : Buckets) (f : RawFile)
    (run : String) (model : JValue) :
    statsAt (processFile idx agg f) run model =
      statsAt agg run model + (if assignedBucket f = some (run, model) then 1 else 0) := by
  cases h1 : find_run_dir f.path with
  | none => simp [processFile, assignedBucket, h1]
  | some runDir =>
    cases h2 : f.body with
    | none => simp [processFile, assignedBucket, h1, h2]
    | some res =>
      simp only [processFile, assignedBucket, h1, h2]
      have hif : (some (pathName runDir, getModel res) = some (run, model))
          ↔ ((pathName runDir, getModel res) = (run, model)) := by simp
      by_cases hv : validateRequired res
      · simp only [hv, Bool.not_true, Bool.false_eq_true, if_false]
        rw [statsAt_bucketsUpdate]
        · simp [hif]
        · intro b
          dsimp only
          simp only [List.length_append, List.length_singleton]
          omega
      · simp only [hv, Bool.not_false, Bool.false_eq_true, if_true]
        rw [statsAt_bucketsUpdate]
        · simp [hif]
        · intro b
          dsimp only
          omega

/-- Processing one raw file keeps every stored result validated: results are
only ever appended after passing validation, and enrichment only adds keys. -/
theorem valid_processFile (idx : List (LegacyKey × CsvRow)) (agg : Buckets) (f : RawFile)
    (h : ∀ run model r, r ∈ (bucketAt agg run model).results → validateRequired r = true) :
    ∀ run model r, r ∈ (bucketAt (processFile idx agg f) run model).results →
      validateRequired r = true := by
  intro run model r
  cases h1 : find_run_dir f.path with
  | none => simpa [processFile, h1] using h run model r
  | some runDir =>
    cases h2 : f.body with
    | none => simpa [processFile, h1, h2] using h run model r
    | some res =>
      simp only [processFile, h1, h2]
      by_cases hv : validateRequired res
      · simp only [hv, Bool.not_true, Bool.false_eq_true, if_false]
        by_cases hk : run = pathName runDir ∧ model = getModel res
        · obtain ⟨hr, hm⟩ := hk
          subst hr; subst hm
          rw [bucketAt_update_self]
          intro hmem
          simp only [List.mem_append, List.mem_singleton] at hmem
          cases hmem with
          | inl hold => exact h _ _ r hold
          | inr hnew =>
            subst hnew
            refine validate_insert _ _ _ ?_
            have hstep : ∀ (d : JObj) (c : Bool) (k : String) (v : JValue),
                validateRequired d = true →
                validateRequired (if c then dictInsert d k v else d) = true := by
              intro d c k v hd
              cases c with
              | true => exact validate_insert d k v hd
              | false => exact hd
            exact hstep _ _ _ _ (hstep _ _ _ _ hv)
        · rw [bucketAt_update_ne _ _ _ _ _ _ hk]
          exact h run model r
      · simp only [hv, Bool.not_false, Bool.false_eq_true, if_true]
        by_cases hk : run = pathName runDir ∧ model = getModel res
        · obtain ⟨hr, hm⟩ := hk
          subst hr; subst hm
          rw [bucketAt_update_self]
          exact fun hmem => h _ _ r hmem
        · rw [bucketAt_update_ne _ _ _ _ _ _ hk]
          exact h run model r

theorem countAssigned_cons (f : RawFile) (fs : List RawFile) (run : String) (model : JValue) :
    countAssigned (f :: fs) run model =
      countAssigned fs run model + (if assignedBucket f = some (run, model) then 1 else 0) := by
  unfold countAssigned
  rw [List.filter_cons]
  by_cases hc : assignedBucket f = some (run, model)
  · rw [if_pos (by simp [hc]), if_pos hc, List.length_cons]
  · rw [if_neg (by simp [hc]), if_neg hc]
    rfl

/-- The aggregation fold invariant: counts add up per bucket and every stored
result stays validated. -/
theorem processFiles_invariant (idx : List (LegacyKey × CsvRow)) (files : List RawFile) :
    ∀ agg : Buckets,
      (∀ run model, statsAt (files.foldl (processFile idx) agg) run model
        = statsAt agg run model + countAssigned files run model)
      ∧ ((∀ run model r, r ∈ (bucketAt agg run model).results → validateRequired r = true) →
          ∀ run model r, r ∈ (bucketAt (files.foldl (processFile idx) agg) run model).results →
            validateRequired r = true) := by
  induction files with
  | nil =>
    intro agg
    exact ⟨fun run model => by simp [countAssigned], fun h => h⟩
  | cons f fs ih =>
    intro agg
    constructor
    · intro run model
      rw [List.foldl_cons, (ih (processFile idx agg f)).1 run model, statsAt_processFile,
        countAssigned_cons]
      omega
    · intro h
      exact (ih (processFile idx agg f)).2 (valid_processFile idx agg f h)

/-- C2: for every `(run, model)` pair, the bucket's kept results plus its
rejection count equal the number of raw files that were parsed and assigned
to that bucket (assignment happens before validation, keyed by the record's
`model` field with default `"unknown"`), and every kept result carries all
six required keys. -/
theorem C2_bucket_accounting :
    ∀ (idx : List (LegacyKey × CsvRow)) (files : List RawFile) (run : String) (model : JValue),
      ((bucketAt (processFiles idx files) run model).results.length
        + (bucketAt (processFiles idx files) run model).rejected_count
        = countAssigned files run model)
      ∧ (∀ r ∈ (bucketAt (processFiles idx files) run model).results,
          validateRequired r = true)
      ∧ (∀ (f : RawFile) (runDir : FsPath) (res : JObj),
          find_run_dir f.path = some runDir → f.body = some res →
          assignedBucket f = some (pathName runDir, (dictGet res "model").getD (jstr "unknown"))) := by
  intro idx files run model
  refine ⟨?_, ?_, ?_⟩
  · show statsAt (processFiles idx files) run model = countAssigned files run model
    have hs := (processFiles_invariant idx files []).1 run model
    have hempty : statsAt ([] : Buckets) run model = 0 := rfl
    unfold processFiles
    rw [hs, hempty, Nat.zero_add]
  · intro r hr
    refine (processFiles_invariant idx files []).2 ?_ run model r hr
    intro run' model' r' hmem
    simp [bucketAt, dictGet, emptyBucket] at hmem
  · intro f runDir res h1 h2
    simp [assignedBucket, h1, h2, getModel]

/-! ### Row-rendering congruence lemmas (towards C10) -/

theorem dictGet_none_iff_no_key [DecidableEq α] (d : List (α × β)) (k : α) :
    dictGet d k = none ↔ dictHasKey d k = false := by
  induction d with
  | nil => simp [dictGet, dictHasKey]
  | cons p rest ih =>
    by_cases hp : p.1 = k
    · simp [dictGet, dictHasKey, hp]
    · simp [dictGet, dictHasKey, hp, ih]

theorem rowsEq_insert (r1 r2 : JObj) (k : String) (v : JValue)
    (hk : ∀ f, dictHasKey r1 f = dictHasKey r2 f)
    (hr : ∀ f, renderCell r1 f = renderCell r2 f) :
    (∀ f, dictHasKey (dictInsert r1 k v) f = dictHasKey (dictInsert r2 k v) f)
    ∧ (∀ f, renderCell (dictInsert r1 k v) f = renderCell (dictInsert r2 k v) f) := by
  constructor
  · intro f
    rw [dictHasKey_insert, dictHasKey_insert, hk]
  · intro f
    by_cases hf : f = k
    · subst hf
      unfold renderCell
      rw [dictGet_insert_self, dictGet_insert_self]
    · unfold renderCell
      rw [dictGet_insert_ne _ _ _ _ hf, dictGet_insert_ne _ _ _ _ hf]
      exact hr f

theorem rowsEq_insert_two (r : JObj) (k : String) (v1 v2 : JValue)
    (hv : cellStr v1 = cellStr v2) :
    (∀ f, dictHasKey (dictInsert r k v1) f = dictHasKey (dictInsert r k v2) f)
    ∧ (∀ f, renderCell (dictInsert r k v1) f = renderCell (dictInsert r k v2) f) := by
  constructor
  · intro f
    rw [dictHasKey_insert, dictHasKey_insert]
  · intro f
    by_cases hf : f = k
    · subst hf
      unfold renderCell
      rw [dictGet_insert_self, dictGet_insert_self]
      exact hv
    · unfold renderCell
      rw [dictGet_insert_ne _ _ _ _ hf, dictGet_insert_ne _ _ _ _ hf]

/-- C10: a result whose `cat_uuid` is present but empty or null is
consolidated exactly like a result with no `cat_uuid` at all — the row
renders identically cell for cell, its `notes` are exactly
`"No UUID in result"`, and no tag is materialized (so no index lookup, hash
cross-check, language backfill or indicator column comes from it): the
branch is on truthiness, not key presence. -/
theorem C10_falsy_uuid :
    ∀ (ci : List (String × CatEntry)) (rn : String) (res0 : JObj) (v : JValue),
      dictHasKey res0 "cat_uuid" = false →
      (v = JValue.scalar .null ∨ v = jstr "") →
      (∀ f, renderCell (buildRow ci rn (res0 ++ [("cat_uuid", v)])).1 f =
        renderCell (buildRow ci rn res0).1 f)
      ∧ dictGet (buildRow ci rn (res0 ++ [("cat_uuid", v)])).1 "notes"
          = some (jstr "No UUID in result")
      ∧ (buildRow ci rn (res0 ++ [("cat_uuid", v)])).2 = [] := by
  intro ci rn res0 v hnk hv
  have hgetA : dictGet (res0 ++ [("cat_uuid", v)]) "cat_uuid" = some v :=
    dictGet_append_single_self _ _ _ hnk
  have hgetB : dictGet res0 "cat_uuid" = none := dictGet_none_of_no_key _ _ hnk
  have hto : dictGet (res0 ++ [("cat_uuid", v)]) "tests_outcomes" = dictGet res0 "tests_outcomes" :=
    dictGet_append_single_ne _ _ _ _ (by decide)
  have hch : dictGet (res0 ++ [("cat_uuid", v)]) "cat_hash" = dictGet res0 "cat_hash" :=
    dictGet_append_single_ne _ _ _ _ (by decide)
  have hvfalsy : v.truthy = false := by
    rcases hv with h | h
    · subst h; rfl
    · subst h; rfl
  have hcopy : (res0 ++ [("cat_uuid", v)]).foldl
      (fun r kv =>
        if !(CONSOLIDATE_EXCLUDE.contains kv.1) && !(isContainer kv.2) then
          dictInsert r kv.1 kv.2
        else r)
      [("run", jstr rn)] =
      res0.foldl
        (fun r kv =>
          if !(CONSOLIDATE_EXCLUDE.contains kv.1) && !(isContainer kv.2) then
            dictInsert r kv.1 kv.2
          else r)
        [("run", jstr rn)] := by
    rw [List.foldl_append]
    simp [CONSOLIDATE_EXCLUDE]
  have hnull : (JValue.scalar JScalar.null).truthy = false := rfl
  unfold buildRow buildRowNotesSets
  rw [hgetA, hgetB, hto, hch, hcopy]
  simp only [Option.getD_some, Option.getD_none, hvfalsy, hnull, Bool.false_eq_true, if_false]
  set row2 := dictInsert
    (res0.foldl
      (fun r kv =>
        if !(CONSOLIDATE_EXCLUDE.contains kv.1) && !(isContainer kv.2) then
          dictInsert r kv.1 kv.2
        else r)
      [("run", jstr rn)]) "tests_outcomes"
    (jstr (outcomesStr ((dictGet res0 "tests_outcomes").getD (.arr [])))) with hrow2
  have e3 := rowsEq_insert_two row2 "uuid" v (.scalar .null)
    (by rcases hv with h | h <;> subst h <;> rfl)
  have e4 := rowsEq_insert _ _ "hash" ((dictGet res0 "cat_hash").getD (.scalar .null)) e3.1 e3.2
  have e6 := rowsEq_insert _ _ "sets" (jstr (joinWith "," [])) e4.1 e4.2
  have e8 := rowsEq_insert _ _ "notes" (jstr (joinWith "; " ["No UUID in result"])) e6.1 e6.2
  refine ⟨e8.2, ?_, trivial⟩
  rw [dictGet_insert_self]
  rfl

/-- Witness for C10: at the concrete record `{"model": "m"}` and an empty
uuid string, the consolidated row renders exactly like the uuid-less record's
row. -/
theorem C10_witness :
    (∀ f, renderCell (buildRow [] "r" ([("model", jstr "m")] ++ [("cat_uuid", jstr "")])).1 f =
      renderCell (buildRow [] "r" [("model", jstr "m")]).1 f)
    ∧ dictGet (buildRow [] "r" ([("model", jstr "m")] ++ [("cat_uuid", jstr "")])).1 "notes"
        = some (jstr "No UUID in result")
    ∧ (buildRow [] "r" ([("model", jstr "m")] ++ [("cat_uuid", jstr "")])).2 = [] :=
  C10_falsy_uuid [] "r" [("model", jstr "m")] (jstr "") (by decide) (Or.inr rfl)

/-! ### Indicator-column lemmas (towards C7) -/

theorem strStarts_set_append (s : String) : strStarts ("set_" ++ s) "set_" = true := by
  unfold strStarts
  rw [String.data_append]
  rw [List.take_left]
  simp

theorem zeroFillRow_cons (c0 : String) (rest : List String) (r : JObj) :
    zeroFillRow (c0 :: rest) r =
      zeroFillRow rest (if dictHasKey r c0 then r else dictInsert r c0 (.scalar (.num 0 0))) :=
  rfl

theorem zeroFill_step_get_ne (r : JObj) (c0 c : String) (h : c ≠ c0) :
    dictGet (if dictHasKey r c0 then r else dictInsert r c0 (.scalar (.num 0 0))) c
      = dictGet r c := by
  split
  · rfl
  · exact dictGet_insert_ne _ _ _ _ h

theorem zeroFill_get_of_not_mem (cols : List String) (r : JObj) (c : String)
    (h : c ∉ cols) : dictGet (zeroFillRow cols r) c = dictGet r c := by
  induction cols generalizing r with
  | nil => rfl
  | cons c0 rest ih =>
    have hc0 : c ≠ c0 := fun hh => h (by simp [hh])
    have hrest : c ∉ rest := fun hh => h (by simp [hh])
    rw [zeroFillRow_cons, ih _ hrest, zeroFill_step_get_ne _ _ _ hc0]

theorem zeroFill_get_of_mem (cols : List String) (r : JObj) (c : String)
    (h : c ∈ cols) :
    dictGet (zeroFillRow cols r) c = some ((dictGet r c).getD (.scalar (.num 0 0))) := by
  induction cols generalizing r with
  | nil => cases h
  | cons c0 rest ih =>
    rw [zeroFillRow_cons]
    by_cases hc0 : c = c0
    · subst hc0
      have hstep : dictGet (if dictHasKey r c then r else dictInsert r c (.scalar (.num 0 0))) c
          = some ((dictGet r c).getD (.scalar (.num 0 0))) := by
        by_cases hk : dictHasKey r c
        · rw [if_pos hk]
          cases hg : dictGet r c with
          | some w => rfl
          | none =>
            rw [(dictGet_none_iff_no_key r c).mp hg] at hk
            cases hk
        · rw [if_neg hk, dictGet_insert_self,
            (dictGet_none_iff_no_key r c).mpr (by simpa using hk)]
          rfl
      by_cases hrest : c ∈ rest
      · rw [ih _ hrest, hstep]
        rfl
      · rw [zeroFill_get_of_not_mem rest _ c hrest, hstep]
    · have hrest : c ∈ rest := by
        cases h with
        | head => exact absurd rfl hc0
        | tail _ hh => exact hh
      rw [ih _ hrest, zeroFill_step_get_ne _ _ _ hc0]

theorem foldl_copy_get_ne (cond : String × JValue → Bool) (res : JObj) (r0 : JObj) (c : String)
    (h : ∀ kv ∈ res, kv.1 ≠ c) :
    dictGet (res.foldl (fun r kv => if cond kv then dictInsert r kv.1 kv.2 else r) r0) c
      = dictGet r0 c := by
  induction res generalizing r0 with
  | nil => rfl
  | cons kv rest ih =>
    rw [List.foldl_cons, ih _ (fun q hq => h q (by simp [hq]))]
    split
    · exact dictGet_insert_ne _ _ _ _ (Ne.symm (h kv (by simp)))
    · rfl

theorem foldl_tags_get (tags : List String) (r0 : JObj) (c : String) :
    dictGet (tags.foldl (fun r s => dictInsert r ("set_" ++ s) (.scalar (.num 1 0))) r0) c =
      if c ∈ tags.map (fun s => "set_" ++ s) then some (.scalar (.num 1 0))
      else dictGet r0 c := by
  induction tags generalizing r0 with
  | nil => simp
  | cons t rest ih =>
    rw [List.foldl_cons, ih]
    by_cases h1 : c ∈ rest.map (fun s => "set_" ++ s)
    · rw [if_pos h1, if_pos (by simp [h1])]
    · rw [if_neg h1]
      by_cases h2 : c = "set_" ++ t
      · subst h2
        rw [dictGet_insert_self, if_pos (by simp)]
      · rw [dictGet_insert_ne _ _ _ _ h2, if_neg (by simp [h1, h2])]

/-- The row component of `buildRowNotesSets` is the incoming row, possibly
with a `language` backfill. -/
theorem buildRowNotesSets_row (ci : List (String × CatEntry)) (u h : JValue) (row4 : JObj) :
    (buildRowNotesSets ci u h row4).2.2 = row4
    ∨ ∃ w, (buildRowNotesSets ci u h row4).2.2 = dictInsert row4 "language" w := by
  unfold buildRowNotesSets
  split
  · split
    · dsimp only
      split
      · exact Or.inr ⟨_, rfl⟩
      · exact Or.inl rfl
    · exact Or.inl rfl
  · exact Or.inl rfl

theorem buildRowNotesSets_get_ne_language (ci : List (String × CatEntry)) (u h : JValue)
    (row4 : JObj) (c : String) (hc : c ≠ "language") :
    dictGet (buildRowNotesSets ci u h row4).2.2 c = dictGet row4 c := by
  rcases buildRowNotesSets_row ci u h row4 with heq | ⟨w, heq⟩
  · rw [heq]
  · rw [heq]
    exact dictGet_insert_ne _ _ _ _ hc

/-- `String.append` is left-cancellative on the `set_` prefix. -/
theorem set_append_inj {s t : String} (h : ("set_" ++ s : String) = "set_" ++ t) : s = t := by
  have hd := congrArg String.data h
  rw [String.data_append, String.data_append] at hd
  have hst := List.append_cancel_left hd
  cases s with
  | mk ls =>
    cases t with
    | mk lt =>
      exact congrArg String.mk hst

/-- No indicator column name is in the consolidation exclusion set. -/
theorem setcol_not_exclude (c : String) (hc : strStarts c "set_" = true) :
    CONSOLIDATE_EXCLUDE.contains c = false := by
  have h1 : ¬(c = "tests_outcomes") := fun hh => by rw [hh] at hc; exact absurd hc (by decide)
  have h2 : ¬(c = "chat_hashes") := fun hh => by rw [hh] at hc; exact absurd hc (by decide)
  have h3 : ¬(c = "cat_uuid") := fun hh => by rw [hh] at hc; exact absurd hc (by decide)
  have h4 : ¬(c = "cat_hash") := fun hh => by rw [hh] at hc; exact absurd hc (by decide)
  have h5 : ¬(c = "source") := fun hh => by rw [hh] at hc; exact absurd hc (by decide)
  simp [CONSOLIDATE_EXCLUDE, h1, h2, h3, h4, h5]

/-- The scalar-copy fold leaves key `c` alone when every `res` field named `c`
fails the copy condition. -/
theorem foldl_copy_get_skip (cond : String × JValue → Bool) (res : JObj) (r0 : JObj) (c : String)
    (h : ∀ kv ∈ res, kv.1 = c → cond kv = false) :
    dictGet (res.foldl (fun r kv => if cond kv then dictInsert r kv.1 kv.2 else r) r0) c
      = dictGet r0 c := by
  induction res generalizing r0 with
  | nil => rfl
  | cons kv rest ih =>
    rw [List.foldl_cons, ih _ (fun q hq => h q (by simp [hq]))]
    by_cases hkc : kv.1 = c
    · rw [h kv (by simp) hkc]
      rfl
    · split
      · exact dictGet_insert_ne _ _ _ _ (Ne.symm hkc)
      · rfl

/-- The scalar-copy fold stores the value of a copy-eligible field named `c`
(for a result with duplicate-free keys, as `json.load` produces). -/
theorem foldl_copy_get_mem (cond : String × JValue → Bool) (res : JObj) (r0 : JObj) (c : String)
    (v : JValue) (hnd : (res.map Prod.fst).Nodup) (hmem : (c, v) ∈ res)
    (hcond : cond (c, v) = true) :
    dictGet (res.foldl (fun r kv => if cond kv then dictInsert r kv.1 kv.2 else r) r0) c
      = some v := by
  induction res generalizing r0 with
  | nil => cases hmem
  | cons kv rest ih =>
    rw [List.foldl_cons]
    rcases List.mem_cons.mp hmem with heq | htail
    · subst heq
      rw [List.map_cons] at hnd
      have hrest : ∀ q ∈ rest, q.1 ≠ c := by
        intro q hq hqc
        exact (List.nodup_cons.mp hnd).1 (List.mem_map.mpr ⟨q, hq, hqc⟩)
      rw [foldl_copy_get_ne cond rest _ c hrest, if_pos hcond]
      exact dictGet_insert_self _ _ _
    · rw [List.map_cons] at hnd
      have hnd' : (rest.map Prod.fst).Nodup := (List.nodup_cons.mp hnd).2
      exact ih _ hnd' htail

theorem buildRow_get_setcol (ci : List (String × CatEntry)) (rn : String) (res : JObj)
    (c : String) (hc : strStarts c "set_" = true) :
    dictGet (buildRow ci rn res).1 c =
      if c ∈ (buildRow ci rn res).2.map (fun s => "set_" ++ s) then some (.scalar (.num 1 0))
      else dictGet (res.foldl (fun r kv =>
        if !(CONSOLIDATE_EXCLUDE.contains kv.1) && !(isContainer kv.2)
        then dictInsert r kv.1 kv.2 else r) [("run", jstr rn)]) c := by
  have hnotes : c ≠ "notes" := fun hh => by rw [hh] at hc; exact absurd hc (by decide)
  have hsets : c ≠ "sets" := fun hh => by rw [hh] at hc; exact absurd hc (by decide)
  have hlang : c ≠ "language" := fun hh => by rw [hh] at hc; exact absurd hc (by decide)
  have huuid : c ≠ "uuid" := fun hh => by rw [hh] at hc; exact absurd hc (by decide)
  have hhash : c ≠ "hash" := fun hh => by rw [hh] at hc; exact absurd hc (by decide)
  have htests : c ≠ "tests_outcomes" := fun hh => by rw [hh] at hc; exact absurd hc (by decide)
  unfold buildRow
  dsimp only
  rw [dictGet_insert_ne _ _ _ _ hnotes, foldl_tags_get]
  refine if_congr Iff.rfl rfl ?_
  rw [dictGet_insert_ne _ _ _ _ hsets,
    buildRowNotesSets_get_ne_language _ _ _ _ _ hlang,
    dictGet_insert_ne _ _ _ _ hhash, dictGet_insert_ne _ _ _ _ huuid,
    dictGet_insert_ne _ _ _ _ htests]

theorem consolidateRows_mem (ci : List (String × CatEntry)) (arts : List ConsArtifact)
    (p : JObj × List String) (h : p ∈ consolidateRows ci arts) :
    ∃ a ∈ arts, ∃ results, a.data = some results
      ∧ ∃ res ∈ results, p = buildRow ci a.parentName res := by
  induction arts with
  | nil => cases h
  | cons a rest ih =>
    unfold consolidateRows at h ih
    rw [List.foldr_cons] at h
    cases ha : a.data with
    | none =>
      rw [ha] at h
      obtain ⟨a2, ha2, hrest⟩ := ih h
      exact ⟨a2, by simp [ha2], hrest⟩
    | some results =>
      rw [ha] at h
      rcases List.mem_append.mp h with hleft | hright
      · obtain ⟨res, hres, hp⟩ := List.mem_map.mp hleft
        exact ⟨a, by simp, results, ha, res, hres, hp.symm⟩
      · obtain ⟨a2, ha2, hrest⟩ := ih hright
        exact ⟨a2, by simp [ha2], hrest⟩

/-- C7 amended: every indicator column `set_<tag>` is part of the output
header and has an explicit (never absent) cell in every row; the table rows
are exactly the per-result rows with every indicator column zero-filled; a
row's tag list is exactly the `set_list` of the index fixture its uuid
resolves to (empty when the uuid is falsy or unknown); and for every result
and every indicator column, the cell is the integer 1 when the result's
fixture carries the tag, the integer 0 when it does not and the raw result
has no copy-eligible (scalar) field literally named `set_<tag>`, and the
verbatim copied value when it does carry such a scalar field (the
counterexample's escape hatch). -/
theorem C7_indicator_columns :
    ∀ (ci : List (String × CatEntry)) (arts : List ConsArtifact),
      (∀ c ∈ consolidateSetCols ci arts, c ∈ (run_consolidate ci arts).header)
      ∧ (∀ c ∈ consolidateSetCols ci arts, ∀ r ∈ (run_consolidate ci arts).rows,
          dictHasKey r c = true)
      ∧ ((run_consolidate ci arts).rows
          = (consolidateRows ci arts).map
              (fun p => zeroFillRow (consolidateSetCols ci arts) p.1))
      ∧ (∀ (rn : String) (res : JObj),
          (buildRow ci rn res).2 =
            if ((dictGet res "cat_uuid").getD (.scalar .null)).truthy then
              match lookupUuid ci ((dictGet res "cat_uuid").getD (.scalar .null)) with
              | some e => e.set_list
              | none => []
            else [])
      ∧ (∀ a ∈ arts, ∀ results : List JObj, a.data = some results → ∀ res ∈ results,
          ∀ s : String, ("set_" ++ s) ∈ consolidateSetCols ci arts →
            (s ∈ (buildRow ci a.parentName res).2 →
              dictGet (zeroFillRow (consolidateSetCols ci arts)
                  (buildRow ci a.parentName res).1) ("set_" ++ s)
                = some (.scalar (.num 1 0)))
            ∧ (s ∉ (buildRow ci a.parentName res).2 →
                (∀ kv ∈ res, kv.1 = "set_" ++ s → isContainer kv.2 = true) →
                dictGet (zeroFillRow (consolidateSetCols ci arts)
                    (buildRow ci a.parentName res).1) ("set_" ++ s)
                  = some (.scalar (.num 0 0)))
            ∧ (s ∉ (buildRow ci a.parentName res).2 →
                (res.map Prod.fst).Nodup →
                ∀ v, ("set_" ++ s, v) ∈ res → isContainer v = false →
                dictGet (zeroFillRow (consolidateSetCols ci arts)
                    (buildRow ci a.parentName res).1) ("set_" ++ s)
                  = some v)) := by
  intro ci arts
  have hrows : (run_consolidate ci arts).rows =
      ((consolidateRows ci arts).map Prod.fst).map (zeroFillRow (consolidateSetCols ci arts)) :=
    rfl
  have hmemrow : ∀ r ∈ (run_consolidate ci arts).rows,
      ∃ p ∈ consolidateRows ci arts, r = zeroFillRow (consolidateSetCols ci arts) p.1 := by
    intro r hr
    rw [hrows] at hr
    obtain ⟨r0, hr0, hzf⟩ := List.mem_map.mp hr
    obtain ⟨p, hp, hp1⟩ := List.mem_map.mp hr0
    exact ⟨p, hp, by rw [← hzf, ← hp1]⟩
  refine ⟨?_, ?_, ?_, ?_, ?_⟩
  · intro c hc
    show c ∈ consolidateHeader ci arts
    unfold consolidateHeader
    exact List.mem_append_right _ hc
  · intro c hc r hr
    obtain ⟨p, hp, rfl⟩ := hmemrow r hr
    exact dictHasKey_true_of_get _ _ _ (zeroFill_get_of_mem _ _ _ hc)
  · rw [hrows, List.map_map]
    rfl
  · intro rn res
    unfold buildRow
    dsimp only
    unfold buildRowNotesSets
    by_cases ht : ((dictGet res "cat_uuid").getD (.scalar .null)).truthy = true
    · rw [if_pos ht, if_pos ht]
      cases hl : lookupUuid ci ((dictGet res "cat_uuid").getD (.scalar .null)) with
      | some e => rfl
      | none => rfl
    · rw [if_neg ht, if_neg ht]
  · intro a ha results hdata res hres s hcol
    have hcpre : strStarts ("set_" ++ s) "set_" = true := strStarts_set_append s
    have hrunne : ¬(("run" : String) = "set_" ++ s) := fun hh => by
      rw [← hh] at hcpre
      exact absurd hcpre (by decide)
    refine ⟨?_, ?_, ?_⟩
    · intro hs
      rw [zeroFill_get_of_mem _ _ _ hcol,
        buildRow_get_setcol ci a.parentName res _ hcpre,
        if_pos (List.mem_map.mpr ⟨s, hs, rfl⟩)]
      rfl
    · intro hs hskip
      have hnot : ("set_" ++ s) ∉ (buildRow ci a.parentName res).2.map
          (fun t => "set_" ++ t) := by
        intro hmm
        obtain ⟨t, ht, hte⟩ := List.mem_map.mp hmm
        exact hs (set_append_inj hte ▸ ht)
      have hskip' : ∀ kv ∈ res, kv.1 = "set_" ++ s →
          (!(CONSOLIDATE_EXCLUDE.contains kv.1) && !(isContainer kv.2)) = false := by
        intro kv hkv hkvc
        rw [hskip kv hkv hkvc]
        simp
      rw [zeroFill_get_of_mem _ _ _ hcol,
        buildRow_get_setcol ci a.parentName res _ hcpre, if_neg hnot,
        foldl_copy_get_skip
          (fun kv => !(CONSOLIDATE_EXCLUDE.contains kv.1) && !(isContainer kv.2))
          res _ _ hskip']
      simp [dictGet, hrunne]
    · intro hs hnd v hv hcont
      have hnot : ("set_" ++ s) ∉ (buildRow ci a.parentName res).2.map
          (fun t => "set_" ++ t) := by
        intro hmm
        obtain ⟨t, ht, hte⟩ := List.mem_map.mp hmm
        exact hs (set_append_inj hte ▸ ht)
      have hcnd : (!(CONSOLIDATE_EXCLUDE.contains ("set_" ++ s)) && !(isContainer v)) = true := by
        rw [setcol_not_exclude _ hcpre, hcont]
        rfl
      rw [zeroFill_get_of_mem _ _ _ hcol,
        buildRow_get_setcol ci a.parentName res _ hcpre, if_neg hnot,
        foldl_copy_get_mem
          (fun kv => !(CONSOLIDATE_EXCLUDE.contains kv.1) && !(isContainer kv.2))
          res _ _ v hnd hv hcnd]
      rfl

/-- C7 counterexample: with fixture `U1` tagged `foo` and a second result
carrying a scalar field literally named `set_foo`, the output header contains
the indicator column `set_foo`, yet the second row's `set_foo` cell is the
copied string `"hello"` — present, but neither 0 nor 1 — refuting the claim
that every indicator cell is 0 or 1. -/
theorem C7_counterexample :
    "set_foo" ∈ (run_consolidate (buildCatIndex (.present c7Rows false)) [c7Artifact]).header
    ∧ ((run_consolidate (buildCatIndex (.present c7Rows false)) [c7Artifact]).rows.map
        (fun r => dictGet r "set_foo")) = [some (.scalar (.num 1 0)), some (jstr "hello")]
    ∧ jstr "hello" ≠ JValue.scalar (.num 0 0) ∧ jstr "hello" ≠ JValue.scalar (.num 1 0) := by
  decide

/-- Witness for C7: the amended theorem applied to the concrete three-result
artifact — `set_foo` is in the header and explicitly present in every row,
the result whose fixture carries `foo` gets cell 1, the result whose fixture
lacks it (and which has no `set_foo` field of its own) gets an explicit 0,
and the result carrying the scalar field `set_foo: "hello"` gets that value
verbatim. -/
theorem C7_witness :
    "set_foo" ∈ (run_consolidate (buildCatIndex (.present c7Rows false)) [c7ArtifactW]).header
    ∧ (∀ r ∈ (run_consolidate (buildCatIndex (.present c7Rows false)) [c7ArtifactW]).rows,
        dictHasKey r "set_foo" = true)
    ∧ dictGet (zeroFillRow (consolidateSetCols (buildCatIndex (.present c7Rows false)) [c7ArtifactW])
        (buildRow (buildCatIndex (.present c7Rows false)) "2024-01-01-00-00-00--demo" c7Res1).1)
        "set_foo" = some (.scalar (.num 1 0))
    ∧ dictGet (zeroFillRow (consolidateSetCols (buildCatIndex (.present c7Rows false)) [c7ArtifactW])
        (buildRow (buildCatIndex (.present c7Rows false)) "2024-01-01-00-00-00--demo" c7Res0).1)
        "set_foo" = some (.scalar (.num 0 0))
    ∧ dictGet (zeroFillRow (consolidateSetCols (buildCatIndex (.present c7Rows false)) [c7ArtifactW])
        (buildRow (buildCatIndex (.present c7Rows false)) "2024-01-01-00-00-00--demo" c7Res2).1)
        "set_foo" = some (jstr "hello") :=
  ⟨(C7_indicator_columns (buildCatIndex (.present c7Rows false)) [c7ArtifactW]).1 "set_foo"
      (by decide),
   (C7_indicator_columns (buildCatIndex (.present c7Rows false)) [c7ArtifactW]).2.1 "set_foo"
      (by decide),
   ((C7_indicator_columns (buildCatIndex (.present c7Rows false)) [c7ArtifactW]).2.2.2.2
      c7ArtifactW (by decide) [c7Res1, c7Res0, c7Res2] rfl c7Res1 (by decide) "foo"
      (by decide)).1 (by decide),
   ((C7_indicator_columns (buildCatIndex (.present c7Rows false)) [c7ArtifactW]).2.2.2.2
      c7ArtifactW (by decide) [c7Res1, c7Res0, c7Res2] rfl c7Res0 (by decide) "foo"
      (by decide)).2.1 (by decide) (by decide),
   ((C7_indicator_columns (buildCatIndex (.present c7Rows false)) [c7ArtifactW]).2.2.2.2
      c7ArtifactW (by decide) [c7Res1, c7Res0, c7Res2] rfl c7Res2 (by decide) "foo"
      (by decide)).2.2 (by decide) (by decide) (jstr "hello") (by decide) (by decide)⟩

/-- Witness for C2: the accounting theorem at the concrete scenario input —
one assigned file, one kept result, zero rejections — and the concrete bucket
key assignment. -/
theorem C2_witness :
    ((bucketAt (processFiles (load_index (.present c5Rows false)) [c5File])
        "2024-01-01-00-00-00--demo" (jstr "gpt")).results.length
      + (bucketAt (processFiles (load_index (.present c5Rows false)) [c5File])
        "2024-01-01-00-00-00--demo" (jstr "gpt")).rejected_count
      = countAssigned [c5File] "2024-01-01-00-00-00--demo" (jstr "gpt"))
    ∧ assignedBucket c5File =
        some ("2024-01-01-00-00-00--demo", (dictGet c5Record "model").getD (jstr "unknown")) :=
  ⟨(C2_bucket_accounting (load_index (.present c5Rows false)) [c5File]
      "2024-01-01-00-00-00--demo" (jstr "gpt")).1,
   (C2_bucket_accounting (load_index (.present c5Rows false)) [c5File]
      "2024-01-01-00-00-00--demo" (jstr "gpt")).2.2 c5File ["2024-01-01-00-00-00--demo"]
      c5Record (by decide) rfl⟩

/-! ### Code-point lexicographic order lemmas (towards C1) -/

theorem char_eq_of_not_lt {x y : Char} (h1 : ¬ x < y) (h2 : ¬ y < x) : x = y :=
  le_antisymm (le_of_not_lt h2) (le_of_not_lt h1)

theorem charsLt_irrefl (l : List Char) : charsLt l l = false := by
  induction l with
  | nil => rfl
  | cons a as ih => simp [charsLt, lt_irrefl, ih]

theorem charsLt_asymm (a b : List Char) (h : charsLt a b = true) : charsLt b a = false := by
  induction a generalizing b with
  | nil =>
    cases b with
    | nil => simp [charsLt] at h
    | cons y ys => simp [charsLt]
  | cons x xs ih =>
    cases b with
    | nil => simp [charsLt] at h
    | cons y ys =>
      simp only [charsLt] at h ⊢
      by_cases h1 : x < y
      · simp [h1, lt_asymm h1]
      · by_cases h2 : y < x
        · simp [h1, h2] at h
        · simp only [h1, h2, if_false] at h ⊢
          exact ih ys h

theorem charsLt_trans (a b c : List Char) (hab : charsLt a b = true)
    (hbc : charsLt b c = true) : charsLt a c = true := by
  induction a generalizing b c with
  | nil =>
    cases b with
    | nil => simp [charsLt] at hab
    | cons y ys =>
      cases c with
      | nil => simp [charsLt] at hbc
      | cons z zs => simp [charsLt]
  | cons x xs ih =>
    cases b with
    | nil => simp [charsLt] at hab
    | cons y ys =>
      cases c with
      | nil => simp [charsLt] at hbc
      | cons z zs =>
        simp only [charsLt] at hab hbc ⊢
        by_cases h1 : x < y
        · by_cases h2 : y < z
          · simp [lt_trans h1 h2]
          · by_cases h3 : z < y
            · simp [h2, h3] at hbc
            · have : y = z := char_eq_of_not_lt h2 h3
              subst this
              simp [h1]
        · by_cases h4 : y < x
          · simp [h1, h4] at hab
          · have hxy : x = y := char_eq_of_not_lt h1 h4
            subst hxy
            simp only [h1, h4, if_false] at hab
            by_cases h2 : x < z
            · simp [h2]
            · by_cases h3 : z < x
              · simp [h2, h3] at hbc
              · have : x = z := char_eq_of_not_lt h2 h3
                subst this
                simp only [h2, h3, if_false] at hbc ⊢
                exact ih ys zs hab hbc

theorem charsLt_conn (a b : List Char) (h1 : charsLt a b = false)
    (h2 : charsLt b a = false) : a = b := by
  induction a generalizing b with
  | nil =>
    cases b with
    | nil => rfl
    | cons y ys => simp [charsLt] at h1
  | cons x xs ih =>
    cases b with
    | nil => simp [charsLt] at h2
    | cons y ys =>
      simp only [charsLt] at h1 h2
      by_cases hxy : x < y
      · simp [hxy] at h1
      · by_cases hyx : y < x
        · simp [hxy, hyx] at h2
        · have hx : x = y := char_eq_of_not_lt hxy hyx
          subst hx
          simp only [hxy, hyx, if_false] at h1 h2
          rw [ih ys h1 h2]

theorem charsLt_le_trans (a b c : List Char) (h1 : charsLt b a = false)
    (h2 : charsLt c b = false) : charsLt c a = false := by
  cases hca : charsLt c a with
  | false => rfl
  | true =>
    by_cases hab : charsLt a b = true
    · have hcb := charsLt_trans c a b hca hab
      rw [hcb] at h2
      simp at h2
    · have : a = b := charsLt_conn a b (by simpa using hab) h1
      subst this
      rw [hca] at h2
      simp at h2

theorem str_eq_of_data_eq {a b : String} (h : a.data = b.data) : a = b := by
  cases a with
  | mk la =>
    cases b with
    | mk lb =>
      simp only at h
      rw [h]

theorem strLt_conn (a b : String) (h1 : strLt a b = false) (h2 : strLt b a = false) : a = b :=
  str_eq_of_data_eq (charsLt_conn a.data b.data h1 h2)

/-! ### Insertion-sort correctness (towards C1) -/

theorem insortK_perm (key : α → String) (x : α) (l : List α) :
    (insortK key x l).Perm (x :: l) := by
  induction l with
  | nil => exact List.Perm.refl _
  | cons y ys ih =>
    unfold insortK
    split
    · exact (ih.cons y).trans (List.Perm.swap x y ys)
    · exact List.Perm.refl _

theorem sortK_perm (key : α → String) (l : List α) : (sortK key l).Perm l := by
  induction l with
  | nil => exact List.Perm.refl _
  | cons x xs ih =>
    show (insortK key x (sortK key xs)).Perm (x :: xs)
    exact (insortK_perm key x (sortK key xs)).trans (ih.cons x)

theorem insortK_sorted (key : α → String) (x : α) (l : List α)
    (h : List.Sorted (keyLe key) l) : List.Sorted (keyLe key) (insortK key x l) := by
  induction l with
  | nil => simp [insortK, List.Sorted]
  | cons y ys ih =>
    rw [List.sorted_cons] at h
    unfold insortK
    by_cases hcond : strLt (key y) (key x) = true
    · rw [if_pos hcond, List.sorted_cons]
      constructor
      · intro b hb
        rcases List.mem_cons.mp ((insortK_perm key x ys).mem_iff.mp hb) with hbx | hby
        · subst hbx
          exact charsLt_asymm _ _ hcond
        · exact h.1 b hby
      · exact ih h.2
    · rw [if_neg hcond, List.sorted_cons]
      constructor
      · intro b hb
        rcases List.mem_cons.mp hb with hby | hbys
        · subst hby
          simpa using hcond
        · exact charsLt_le_trans _ _ _ (by simpa using hcond) (h.1 b hbys)
      · exact List.sorted_cons.mpr h

theorem sortK_sorted (key : α → String) (l : List α) :
    List.Sorted (keyLe key) (sortK key l) := by
  induction l with
  | nil => exact List.sorted_nil
  | cons x xs ih => exact insortK_sorted key x (sortK key xs) ih

theorem sorted_strict (key : α → String) (l : List α) (hs : List.Sorted (keyLe key) l)
    (hn : (l.map key).Nodup) : List.Sorted (keyLtP key) l := by
  have hn2 : List.Pairwise (fun a b => key a ≠ key b) l := List.pairwise_map.mp hn
  refine (hs.and hn2).imp ?_
  intro a b hab
  cases hlt : strLt (key a) (key b) with
  | true => exact hlt
  | false => exact absurd (strLt_conn _ _ hlt hab.1) hab.2

theorem eq_of_perm_of_strict (key : α → String) (l₁ l₂ : List α) (hp : l₁.Perm l₂)
    (h1 : List.Sorted (keyLtP key) l₁) (h2 : List.Sorted (keyLtP key) l₂) : l₁ = l₂ := by
  haveI : IsAntisymm α (keyLtP key) := ⟨fun a b hab hba => by
    have h := charsLt_asymm _ _ hab
    unfold keyLtP strLt at hba
    rw [h] at hba
    simp at hba⟩
  exact List.eq_of_perm_of_sorted hp h1 h2

theorem sortK_nodup_keys (key : α → String) (l : List α) (hn : (l.map key).Nodup) :
    ((sortK key l).map key).Nodup :=
  ((sortK_perm key l).map key).symm.nodup hn

theorem sortK_strict (key : α → String) (l : List α) (hn : (l.map key).Nodup) :
    List.Sorted (keyLtP key) (sortK key l) :=
  sorted_strict key _ (sortK_sorted key l) (sortK_nodup_keys key l hn)

theorem sortK_eq_of_perm (key : α → String) (l₁ l₂ : List α) (hp : l₁.Perm l₂)
    (hn : (l₁.map key).Nodup) : sortK key l₁ = sortK key l₂ := by
  have hn2 : (l₂.map key).Nodup := (hp.map key).nodup hn
  exact eq_of_perm_of_strict key _ _
    ((sortK_perm key l₁).trans (hp.trans (sortK_perm key l₂).symm))
    (sortK_strict _ _ hn) (sortK_strict _ _ hn2)

theorem pairwise_keyfst_replace {β : Type} (S₁ S₂ : List (String × β)) (k : String) (x y : β)
    (h : List.Pairwise (keyLtP (Prod.fst : String × β → String)) (S₁ ++ (k, x) :: S₂)) :
    List.Pairwise (keyLtP (Prod.fst : String × β → String)) (S₁ ++ (k, y) :: S₂) := by
  rw [List.pairwise_append] at h ⊢
  obtain ⟨hS1, hmid, hcross⟩ := h
  refine ⟨hS1, ?_, ?_⟩
  · rw [List.pairwise_cons] at hmid ⊢
    exact ⟨fun b hb => hmid.1 b hb, hmid.2⟩
  · intro a ha b hb
    rcases List.mem_cons.mp hb with hbeq | hbmem
    · subst hbeq
      exact hcross a ha (k, x) (List.mem_cons_self _ _)
    · exact hcross a ha b (List.mem_cons_of_mem _ hbmem)

/-- The sorted positions of every other entry do not depend on one entry's
payload: replacing the payload of the (unique) entry keyed `k` replaces it in
place in the sorted output. -/
theorem sortK_replace {β : Type} (L₁ L₂ : List (String × β)) (k : String) (x y : β)
    (hnd : ((L₁ ++ (k, x) :: L₂).map Prod.fst).Nodup) :
    ∃ S₁ S₂, sortK Prod.fst (L₁ ++ (k, x) :: L₂) = S₁ ++ (k, x) :: S₂
      ∧ sortK Prod.fst (L₁ ++ (k, y) :: L₂) = S₁ ++ (k, y) :: S₂ := by
  have hperm := sortK_perm (Prod.fst : String × β → String) (L₁ ++ (k, x) :: L₂)
  have hmem : (k, x) ∈ sortK Prod.fst (L₁ ++ (k, x) :: L₂) :=
    hperm.mem_iff.mpr (by simp)
  obtain ⟨S₁, S₂, heq⟩ := List.append_of_mem hmem
  refine ⟨S₁, S₂, heq, ?_⟩
  have hkeys : ((L₁ ++ (k, y) :: L₂).map Prod.fst) = ((L₁ ++ (k, x) :: L₂).map Prod.fst) := by
    simp
  have hnd2 : ((L₁ ++ (k, y) :: L₂).map Prod.fst).Nodup := by
    rw [hkeys]
    exact hnd
  have hstrict : List.Pairwise (keyLtP (Prod.fst : String × β → String)) (S₁ ++ (k, y) :: S₂) := by
    refine pairwise_keyfst_replace S₁ S₂ k x y ?_
    rw [← heq]
    exact sortK_strict _ _ hnd
  have hpx : (S₁ ++ (k, x) :: S₂).Perm (L₁ ++ (k, x) :: L₂) := by
    rw [← heq]
    exact hperm
  have hrests : (S₁ ++ S₂).Perm (L₁ ++ L₂) :=
    ((List.perm_middle.symm.trans hpx).trans List.perm_middle).cons_inv
  have hpy : (S₁ ++ (k, y) :: S₂).Perm (L₁ ++ (k, y) :: L₂) :=
    (List.perm_middle.trans (hrests.cons (k, y))).trans List.perm_middle.symm
  exact eq_of_perm_of_strict Prod.fst _ _
    ((sortK_perm _ _).trans hpy.symm) (sortK_strict _ _ hnd2) hstrict

/-! ### Digest-stream lemmas (towards C1) -/

theorem filesStreamP_eq_plain (dir : String) (l : List (String × List Nat)) :
    filesStreamP dir l = plainStream dir (l.filter (fun p => !(isCatMetadataFile p.1))) := by
  induction l with
  | nil => rfl
  | cons p rest ih =>
    rcases p with ⟨name, bs⟩
    by_cases hm : isCatMetadataFile name
    · simp [filesStreamP, hm, List.filter_cons, ih]
    · simp [filesStreamP, hm, List.filter_cons, ih, plainStream]

theorem plainStream_append (dir : String) (l₁ l₂ : List (String × List Nat)) :
    plainStream dir (l₁ ++ l₂) = plainStream dir l₁ ++ plainStream dir l₂ := by
  induction l₁ with
  | nil => rfl
  | cons p rest ih => simp [plainStream, List.foldr_cons, List.append_assoc] at *; rw [ih]

theorem plainStream_middle (dir f : String) (c : List Nat) (S₁ S₂ : List (String × List Nat)) :
    plainStream dir (S₁ ++ (f, c) :: S₂) =
      plainStream dir S₁ ++ (utf8Encode (relPathOf dir f) ++ (c ++ plainStream dir S₂)) := by
  rw [plainStream_append]
  simp [plainStream, List.append_assoc]

theorem filter_keys_nodup {β : Type} (l : List (String × β)) (p : String × β → Bool)
    (hn : (l.map Prod.fst).Nodup) : ((l.filter p).map Prod.fst).Nodup :=
  List.Nodup.sublist ((List.filter_sublist l).map Prod.fst) hn

theorem filter_sortK_comm (l : List (String × List Nat)) (p : String → Bool)
    (hn : (l.map Prod.fst).Nodup) :
    (sortK Prod.fst l).filter (fun q => p q.1) = sortK Prod.fst (l.filter (fun q => p q.1)) := by
  have hsub : ((l.filter (fun q => p q.1)).map Prod.fst).Nodup :=
    filter_keys_nodup l _ hn
  have h1 : List.Sorted (keyLtP (Prod.fst : String × List Nat → String))
      ((sortK Prod.fst l).filter (fun q => p q.1)) :=
    (sortK_strict _ _ hn).filter _
  have h2 := sortK_strict (Prod.fst : String × List Nat → String) (l.filter (fun q => p q.1)) hsub
  have hp : ((sortK Prod.fst l).filter (fun q => p q.1)).Perm (l.filter (fun q => p q.1)) :=
    (sortK_perm _ l).filter _
  exact eq_of_perm_of_strict _ _ _ (hp.trans (sortK_perm _ _).symm) h1 h2

theorem dirStreamP_filter (dir : String) (fs : List (String × List Nat))
    (hn : (fs.map Prod.fst).Nodup) :
    dirStreamP dir fs =
      plainStream dir (sortK Prod.fst (fs.filter (fun q => !(isCatMetadataFile q.1)))) := by
  unfold dirStreamP
  rw [filesStreamP_eq_plain, filter_sortK_comm fs (fun s => !(isCatMetadataFile s)) hn]

theorem dirStreamP_meta_cons (dir m : String) (c : List Nat) (F : List (String × List Nat))
    (hm : isCatMetadataFile m = true) (hn : (m :: F.map Prod.fst).Nodup) :
    dirStreamP dir ((m, c) :: F) = dirStreamP dir F := by
  have hnF : (F.map Prod.fst).Nodup := hn.of_cons
  have hncons : (((m, c) :: F).map Prod.fst).Nodup := by simpa using hn
  rw [dirStreamP_filter _ _ hncons, dirStreamP_filter _ _ hnF]
  have hfe : ((m, c) :: F).filter (fun q => !(isCatMetadataFile q.1))
      = F.filter (fun q => !(isCatMetadataFile q.1)) := by
    simp [List.filter_cons, hm]
  rw [hfe]

theorem dirStreamP_perm (dir : String) (F F' : List (String × List Nat)) (hp : F.Perm F')
    (hn : (F.map Prod.fst).Nodup) : dirStreamP dir F = dirStreamP dir F' := by
  unfold dirStreamP
  rw [sortK_eq_of_perm _ _ _ hp hn]

theorem treeFold_append (A B : PureTree) : treeFold (A ++ B) = treeFold A ++ treeFold B := by
  induction A with
  | nil => rfl
  | cons p rest ih => simp [treeFold, List.foldr_cons, List.append_assoc] at *; rw [ih]

theorem treeFold_cons (d : String) (F : List (String × List Nat)) (B : PureTree) :
    treeFold ((d, F) :: B) = dirStreamP d F ++ treeFold B := rfl

theorem treeStreamP_perm (t t' : PureTree) (hp : t.Perm t') (hn : (t.map Prod.fst).Nodup) :
    treeStreamP t = treeStreamP t' := by
  unfold treeStreamP
  rw [sortK_eq_of_perm _ _ _ hp hn]

theorem treeStreamP_replace (T₁ T₂ : PureTree) (d : String)
    (X Y : List (String × List Nat))
    (hnd : ((T₁ ++ (d, X) :: T₂).map Prod.fst).Nodup)
    (hXY : dirStreamP d X = dirStreamP d Y) :
    treeStreamP (T₁ ++ (d, X) :: T₂) = treeStreamP (T₁ ++ (d, Y) :: T₂) := by
  obtain ⟨S₁, S₂, h1, h2⟩ := sortK_replace T₁ T₂ d X Y hnd
  unfold treeStreamP
  rw [h1, h2, treeFold_append, treeFold_append, treeFold_cons, treeFold_cons, hXY]

theorem treeStreamP_replace_ne (T₁ T₂ : PureTree) (d : String)
    (X Y : List (String × List Nat))
    (hnd : ((T₁ ++ (d, X) :: T₂).map Prod.fst).Nodup)
    (hXY : dirStreamP d X ≠ dirStreamP d Y) :
    treeStreamP (T₁ ++ (d, X) :: T₂) ≠ treeStreamP (T₁ ++ (d, Y) :: T₂) := by
  obtain ⟨S₁, S₂, h1, h2⟩ := sortK_replace T₁ T₂ d X Y hnd
  unfold treeStreamP
  rw [h1, h2, treeFold_append, treeFold_append, treeFold_cons, treeFold_cons]
  intro hcontra
  exact hXY (List.append_cancel_right (List.append_cancel_left hcontra))

theorem utf8Char_ne_nil (ch : Char) : utf8Char ch ≠ [] := by
  unfold utf8Char
  dsimp only
  split_ifs <;> simp

theorem utf8Encode_ne_nil (s : String) (h : s ≠ "") : utf8Encode s ≠ [] := by
  cases hs : s.data with
  | nil =>
    exfalso
    exact h (str_eq_of_data_eq (by rw [hs]))
  | cons ch rest =>
    have heq : utf8Encode s = utf8Char ch ++ rest.foldr (fun c acc => utf8Char c ++ acc) [] := by
      unfold utf8Encode
      rw [hs]
      rfl
    rw [heq]
    intro hc
    exact utf8Char_ne_nil ch (List.append_eq_nil.mp hc).1

theorem relPathOf_ne_empty (dir f : String) (h : f ≠ "") : relPathOf dir f ≠ "" := by
  unfold relPathOf
  split
  · exact h
  · intro hc
    have hl := congrArg String.length hc
    rw [String.length_append, String.length_append] at hl
    have h1 : ("/" : String).length = 1 := rfl
    have h0 : ("" : String).length = 0 := rfl
    rw [h1, h0] at hl
    omega

theorem dirStreamP_content_ne (dir f : String) (c c' : List Nat)
    (F₁ F₂ : List (String × List Nat))
    (hn : ((F₁ ++ (f, c) :: F₂).map Prod.fst).Nodup)
    (hf : isCatMetadataFile f = false) (hcc : c ≠ c') :
    dirStreamP dir (F₁ ++ (f, c) :: F₂) ≠ dirStreamP dir (F₁ ++ (f, c') :: F₂) := by
  have hkeys : ((F₁ ++ (f, c') :: F₂).map Prod.fst) = ((F₁ ++ (f, c) :: F₂).map Prod.fst) := by
    simp
  have hn' : ((F₁ ++ (f, c') :: F₂).map Prod.fst).Nodup := by
    rw [hkeys]
    exact hn
  have hfilters : ∀ cc : List Nat,
      (F₁ ++ (f, cc) :: F₂).filter (fun q => !(isCatMetadataFile q.1))
        = F₁.filter (fun q => !(isCatMetadataFile q.1))
          ++ (f, cc) :: F₂.filter (fun q => !(isCatMetadataFile q.1)) := by
    intro cc
    simp [List.filter_append, List.filter_cons, hf]
  have hnf : ((F₁.filter (fun q => !(isCatMetadataFile q.1))
      ++ (f, c) :: F₂.filter (fun q => !(isCatMetadataFile q.1))).map Prod.fst).Nodup := by
    rw [← hfilters c]
    exact filter_keys_nodup _ _ hn
  obtain ⟨S₁, S₂, h1, h2⟩ :=
    sortK_replace (F₁.filter (fun q => !(isCatMetadataFile q.1)))
      (F₂.filter (fun q => !(isCatMetadataFile q.1))) f c c' hnf
  rw [dirStreamP_filter _ _ hn, dirStreamP_filter _ _ hn', hfilters c, hfilters c', h1, h2,
    plainStream_middle, plainStream_middle]
  intro hcontra
  exact hcc (List.append_cancel_right
    (List.append_cancel_left (List.append_cancel_left hcontra)))

theorem plainStream_length (dir : String) (l : List (String × List Nat)) :
    (plainStream dir l).length =
      (l.map (fun p => (utf8Encode (relPathOf dir p.1)).length + p.2.length)).sum := by
  induction l with
  | nil => rfl
  | cons p rest ih => simp [plainStream, List.foldr_cons] at *; omega

theorem dirStreamP_length (dir : String) (G : List (String × List Nat))
    (hn : (G.map Prod.fst).Nodup) :
    (dirStreamP dir G).length =
      ((G.filter (fun q => !(isCatMetadataFile q.1))).map
        (fun p => (utf8Encode (relPathOf dir p.1)).length + p.2.length)).sum := by
  rw [dirStreamP_filter _ _ hn, plainStream_length]
  exact List.Perm.sum_eq ((sortK_perm _ _).map _)

theorem dirStreamP_add_ne (dir f : String) (c : List Nat) (F : List (String × List Nat))
    (hn : (f :: F.map Prod.fst).Nodup) (hf : isCatMetadataFile f = false) (hfe : f ≠ "") :
    dirStreamP dir ((f, c) :: F) ≠ dirStreamP dir F := by
  have hnF : (F.map Prod.fst).Nodup := hn.of_cons
  have hncons : (((f, c) :: F).map Prod.fst).Nodup := by simpa using hn
  intro hcontra
  have hlen := congrArg List.length hcontra
  rw [dirStreamP_length _ _ hncons, dirStreamP_length _ _ hnF] at hlen
  rw [List.filter_cons] at hlen
  have hcond : (!(isCatMetadataFile (f, c).1)) = true := by simp [hf]
  rw [if_pos hcond, List.map_cons, List.sum_cons] at hlen
  dsimp only at hlen
  have hpos : 0 < (utf8Encode (relPathOf dir f)).length :=
    List.length_pos.mpr (utf8Encode_ne_nil _ (relPathOf_ne_empty dir f hfe))
  omega

theorem insortK_map_snd {β γ : Type} (g : β → γ) (x : String × β) (l : List (String × β)) :
    insortK Prod.fst (x.1, g x.2) (l.map (fun p => (p.1, g p.2)))
      = (insortK Prod.fst x l).map (fun p => (p.1, g p.2)) := by
  induction l with
  | nil => rfl
  | cons y ys ih =>
    rw [List.map_cons]
    unfold insortK
    by_cases hcond : strLt y.1 x.1 = true
    · rw [if_pos hcond, if_pos hcond, List.map_cons, ih]
    · rw [if_neg hcond, if_neg hcond]
      rfl

theorem sortK_map_snd {β γ : Type} (g : β → γ) (l : List (String × β)) :
    sortK Prod.fst (l.map (fun p => (p.1, g p.2)))
      = (sortK Prod.fst l).map (fun p => (p.1, g p.2)) := by
  induction l with
  | nil => rfl
  | cons x xs ih =>
    show insortK Prod.fst (x.1, g x.2) (sortK Prod.fst (xs.map (fun p => (p.1, g p.2))))
      = (insortK Prod.fst x (sortK Prod.fst xs)).map (fun p => (p.1, g p.2))
    rw [ih]
    exact insortK_map_snd g x (sortK Prod.fst xs)

theorem filesStreamE_pure (dir : String) (l : List (String × List Nat)) :
    filesStreamE dir (pureFiles l) = .ok (filesStreamP dir l) := by
  induction l with
  | nil => rfl
  | cons p rest ih =>
    rcases p with ⟨name, bs⟩
    show (if isCatMetadataFile name then filesStreamE dir (pureFiles rest)
      else (filesStreamE dir (pureFiles rest)).map
        (fun s => utf8Encode (relPathOf dir name) ++ bs ++ s))
      = Except.ok (filesStreamP dir ((name, bs) :: rest))
    have hstep : filesStreamP dir ((name, bs) :: rest)
        = if isCatMetadataFile name then filesStreamP dir rest
          else utf8Encode (relPathOf dir name) ++ bs ++ filesStreamP dir rest := by
      simp only [filesStreamP]
    by_cases hm : isCatMetadataFile name
    · rw [if_pos hm, ih, hstep, if_pos hm]
    · rw [if_neg hm, ih, hstep, if_neg hm]
      rfl

theorem dirsStreamE_pureTree (t : PureTree) : dirsStreamE (pureTree t) = .ok (treeFold t) := by
  induction t with
  | nil => rfl
  | cons p rest ih =>
    rcases p with ⟨d, F⟩
    have h1 : sortK Prod.fst (pureFiles F) = pureFiles (sortK Prod.fst F) :=
      sortK_map_snd ReadResult.ok F
    show (match filesStreamE d (sortK Prod.fst (pureFiles F)) with
      | .error e => .error e
      | .ok s => (dirsStreamE (pureTree rest)).map (fun u => s ++ u))
      = Except.ok (dirStreamP d F ++ treeFold rest)
    rw [h1, filesStreamE_pure, ih]
    rfl

/-- Bridge: on a tree whose reads all succeed, `calculate_directory_hash`
returns the hex SHA-256 of exactly the digest input stream. -/
theorem cdh_pure (t : PureTree) :
    calculate_directory_hash (pureTree t) = .ok (sha256hex (treeStreamP t)) := by
  unfold calculate_directory_hash
  have h1 : sortK Prod.fst (pureTree t) = pureTree (sortK Prod.fst t) :=
    sortK_map_snd pureFiles t
  rw [h1, dirsStreamE_pureTree]
  rfl

/-- C1 amended: for trees with well-formed (duplicate-free) directory and file
names, the content hash (i) is the SHA-256 of a canonical digest stream,
(ii) is invariant under reordering of the filesystem-returned directory
entries and (iii) of the files within a directory, (iv) is invariant under
adding/removing (hence also modifying) any `cat*.yaml` metadata file, (v) the
digest stream — and hence, barring a SHA-256 collision, the hash — changes
whenever a non-metadata file's content changes, and (vi) whenever a
non-metadata file is added or removed; and (vii) a directory holding only
`cat.yaml` hashes to the digest of the empty input.  Renaming a non-metadata
file does NOT always change the hash (see the counterexample), because
relative paths and contents are concatenated without a separator. -/
theorem C1_content_hash_properties :
    (∀ t : PureTree, calculate_directory_hash (pureTree t) = .ok (sha256hex (treeStreamP t)))
    ∧ (∀ t t' : PureTree, (t.map Prod.fst).Nodup → t.Perm t' →
        calculate_directory_hash (pureTree t) = calculate_directory_hash (pureTree t'))
    ∧ (∀ (T₁ T₂ : PureTree) (d : String) (F F' : List (String × List Nat)),
        ((T₁ ++ (d, F) :: T₂).map Prod.fst).Nodup → (F.map Prod.fst).Nodup → F.Perm F' →
        calculate_directory_hash (pureTree (T₁ ++ (d, F) :: T₂))
          = calculate_directory_hash (pureTree (T₁ ++ (d, F') :: T₂)))
    ∧ (∀ (T₁ T₂ : PureTree) (d m : String) (c : List Nat) (F : List (String × List Nat)),
        ((T₁ ++ (d, (m, c) :: F) :: T₂).map Prod.fst).Nodup →
        (m :: F.map Prod.fst).Nodup → isCatMetadataFile m = true →
        calculate_directory_hash (pureTree (T₁ ++ (d, (m, c) :: F) :: T₂))
          = calculate_directory_hash (pureTree (T₁ ++ (d, F) :: T₂)))
    ∧ (∀ (T₁ T₂ : PureTree) (d f : String) (c c' : List Nat)
        (F₁ F₂ : List (String × List Nat)),
        ((T₁ ++ (d, F₁ ++ (f, c) :: F₂) :: T₂).map Prod.fst).Nodup →
        ((F₁ ++ (f, c) :: F₂).map Prod.fst).Nodup →
        isCatMetadataFile f = false → c ≠ c' →
        treeStreamP (T₁ ++ (d, F₁ ++ (f, c) :: F₂) :: T₂)
          ≠ treeStreamP (T₁ ++ (d, F₁ ++ (f, c') :: F₂) :: T₂))
    ∧ (∀ (T₁ T₂ : PureTree) (d f : String) (c : List Nat) (F : List (String × List Nat)),
        ((T₁ ++ (d, (f, c) :: F) :: T₂).map Prod.fst).Nodup →
        (f :: F.map Prod.fst).Nodup → isCatMetadataFile f = false → f ≠ "" →
        treeStreamP (T₁ ++ (d, (f, c) :: F) :: T₂) ≠ treeStreamP (T₁ ++ (d, F) :: T₂))
    ∧ (∀ c : List Nat, calculate_directory_hash (pureTree [("", [("cat.yaml", c)])])
        = .ok (sha256hex [])) := by
  refine ⟨cdh_pure, ?_, ?_, ?_, ?_, ?_, ?_⟩
  · intro t t' hn hp
    rw [cdh_pure, cdh_pure, treeStreamP_perm t t' hp hn]
  · intro T₁ T₂ d F F' hnd hnF hp
    rw [cdh_pure, cdh_pure,
      treeStreamP_replace T₁ T₂ d F F' hnd (dirStreamP_perm d F F' hp hnF)]
  · intro T₁ T₂ d m c F hnd hnm hm
    rw [cdh_pure, cdh_pure,
      treeStreamP_replace T₁ T₂ d ((m, c) :: F) F hnd (dirStreamP_meta_cons d m c F hm hnm)]
  · intro T₁ T₂ d f c c' F₁ F₂ hnd hnF hf hcc
    exact treeStreamP_replace_ne T₁ T₂ d _ _ hnd (dirStreamP_content_ne d f c c' F₁ F₂ hnF hf hcc)
  · intro T₁ T₂ d f c F hnd hnF hf hfe
    exact treeStreamP_replace_ne T₁ T₂ d _ _ hnd (dirStreamP_add_ne d f c F hnF hf hfe)
  · intro c
    rw [cdh_pure]
    have hz : treeStreamP [("", [("cat.yaml", c)])] = [] := rfl
    rw [hz]

/-- C1 counterexample (refuting the rename-sensitivity clause as stated):
renaming the non-metadata file `ab` (content bytes of `"aba"`) to `ba`, with
the second file `aba` (empty) untouched, leaves the digest stream — and hence
the hash — unchanged, because the sorted order flips and path bytes and
content bytes are concatenated without a separator: both trees hash the byte
string `"ab"+"aba"+"aba" = "aba"+"ba"+"aba"`. -/
theorem C1_rename_counterexample :
    calculate_directory_hash (pureTree c1TreeBefore)
      = calculate_directory_hash (pureTree c1TreeAfter)
    ∧ treeStreamP c1TreeBefore = treeStreamP c1TreeAfter
    ∧ dictGet (c1TreeBefore.headD ("", [])).2 "ab" = some [97, 98, 97]
    ∧ dictGet (c1TreeAfter.headD ("", [])).2 "ba" = some [97, 98, 97]
    ∧ dictGet (c1TreeAfter.headD ("", [])).2 "ab" = none
    ∧ dictGet (c1TreeBefore.headD ("", [])).2 "aba" = some []
    ∧ dictGet (c1TreeAfter.headD ("", [])).2 "aba" = some []
    ∧ isCatMetadataFile "ab" = false
    ∧ isCatMetadataFile "ba" = false
    ∧ isCatMetadataFile "aba" = false := by
  have hs : treeStreamP c1TreeBefore = treeStreamP c1TreeAfter := by decide
  refine ⟨?_, hs, by decide, by decide, by decide, by decide, by decide, by decide, by decide,
    by decide⟩
  rw [cdh_pure, cdh_pure, hs]

/-- Witness for C1: the invariance part at a concrete two-directory tree with
its entries swapped, and the add/remove sensitivity part at a concrete
one-directory tree. -/
theorem C1_witness :
    (calculate_directory_hash (pureTree [("a", []), ("b", [("f", [7])])])
      = calculate_directory_hash (pureTree [("b", [("f", [7])]), ("a", [])]))
    ∧ treeStreamP [("", [("f", [7]), ("g", [8])])] ≠ treeStreamP [("", [("g", [8])])] :=
  ⟨C1_content_hash_properties.2.1 [("a", []), ("b", [("f", [7])])]
      [("b", [("f", [7])]), ("a", [])] (by decide) (by decide),
   C1_content_hash_properties.2.2.2.2.2.1 [] [] "" "f" [7] [("g", [8])]
      (by decide) (by decide) (by decide) (by decide)⟩
